import Mathlib

/-!
# Verification of the comic_git build pipeline (`src/scripts/build_site.py`)

This file gives a shallow embedding of the content-aggregation pipeline of
`build_site.py` and proves/refutes the frozen claims about it.

Modelling conventions:
* Python dicts holding page metadata become Lean structures; the fields kept are
  exactly those read by the functions under verification.
* The parsed post date (`datetime.strptime(...)` / its `pytz` localization) is
  abstracted as an integer timestamp `postDate : Int`; both the scheduling
  comparison (`post_date > local_time`) and the sort key
  (`strptime(x["Post date"], date_format)`) are order-isomorphic views of the
  same parsed date string, so one totally ordered field models both.
* Python string comparison (used as the sort tie-break) is lexicographic by
  code point; `pyStrLe` implements exactly that on the underlying char lists.
* Fallible code (`raise`) is modelled with `Except`.
* `sorted(...)` in CPython is a stable sort by the given key; a stable sort by
  a total preorder is unique, so `List.insertionSort` (stable in Mathlib's
  formulation) models it exactly.
-/

namespace ComicGit

instance {ε α : Type} [DecidableEq ε] [DecidableEq α] : DecidableEq (Except ε α) :=
  fun x y =>
    match x, y with
    | .ok a, .ok b =>
      if h : a = b then .isTrue (by rw [h]) else .isFalse (by simp [h])
    | .error e, .error f =>
      if h : e = f then .isTrue (by rw [h]) else .isFalse (by simp [h])
    | .ok _, .error _ => .isFalse (by simp)
    | .error _, .ok _ => .isFalse (by simp)

/-- Python string `<=` restricted to what the build script needs: lexicographic
comparison of the code-point sequences, as CPython compares `str` values. -/
def lexLe : List Char → List Char → Bool
  | [], _ => true
  | _ :: _, [] => false
  | c :: cs, d :: ds => if c = d then lexLe cs ds else decide (c < d)

/-- Python string `<` (strict lexicographic comparison by code point). -/
def lexLt : List Char → List Char → Bool
  | [], [] => false
  | [], _ :: _ => true
  | _ :: _, [] => false
  | c :: cs, d :: ds => if c = d then lexLt cs ds else decide (c < d)

/-- Python `a <= b` on strings. -/
def pyStrLe (a b : String) : Bool := lexLe a.toList b.toList

/-- Python `a < b` on strings. -/
def pyStrLt (a b : String) : Bool := lexLt a.toList b.toList

/-- One page source directory as seen by the scanner loop of
`get_page_info_list`: the directory name, whether `info.ini` exists, the parsed
post date, the `Filename` key (`""` when absent, matching the falsy check
`not page_info.get("Filename", "")`), the directory listing, and the raw
`Storyline`/`Characters`/`Tags` strings from `info.ini`. -/
structure RawPage where
  pageName : String
  hasInfo : Bool
  postDate : Int
  filename : String
  dirFiles : List String
  storyline : String
  characters : String
  tags : String
deriving DecidableEq, Repr, Inhabited

/-- A published page record as appended to `page_info_list`. -/
structure PageInfo where
  pageName : String
  postDate : Int
  filename : String
  storyline : String
  characters : List String
  tags : List String
deriving DecidableEq, Repr, Inhabited

/-- Modelled from the spec: `utils.str_to_list` (the `utils` module is not part
of the sources provided). Per §4.1/§6 of the spec it normalizes a comma- or
semicolon-delimited string into an ordered list of trimmed labels, with the
empty string yielding the empty list. -/
def str_to_list (s : String) : List String :=
  ((s.toList.splitOnP (fun c => c = ',' || c = ';')).map
    (fun part => String.mk ((part.dropWhile Char.isWhitespace).reverse.dropWhile
      Char.isWhitespace).reverse)).filter (fun part => part ≠ "")

/-- The fatal errors `get_page_info_list` can raise while resolving a page's
image file (both are `FileNotFoundError` in the source, with distinct
messages). -/
inductive ScanError where
  /-- `"Comic image filename must be provided in {page_path}info.ini"` -/
  | missingFilename (pageName : String)
  /-- `"Found {len(image_files)} images when attempting to auto-detect ..."` -/
  | autodetectCount (pageName : String) (found : List String)
deriving DecidableEq, Repr

/-- The image-file extensions accepted by the auto-detection regex
`\.(jpg|jpeg|png|tif|tiff|gif|bmp|webp|webv|svg|eps)$`. -/
def imageExtensions : List String :=
  ["jpg", "jpeg", "png", "tif", "tiff", "gif", "bmp", "webp", "webv", "svg", "eps"]

/-- `re.search(r"\.(jpg|...)$", filename)`: the filename ends in a dot followed
by one of the accepted extensions. -/
def isImageFile (filename : String) : Bool :=
  imageExtensions.any (fun ext =>
    ("." ++ ext).toList.isSuffixOf filename.toList)

/-- Image-filename resolution for one page (the body of the `else` branch of
the scheduling check): use the explicit `Filename` if non-empty; otherwise
auto-detect exactly one image file in the directory, skipping `thumbnail.jpg`,
raising when auto-detection is disabled or finds `≠ 1` candidates. -/
def resolveFilename (autoDetect : Bool) (p : RawPage) : Except ScanError String :=
  if p.filename ≠ "" then .ok p.filename
  else if !autoDetect then .error (.missingFilename p.pageName)
  else
    let image_files := p.dirFiles.filter
      (fun f => decide (f ≠ "thumbnail.jpg") && isImageFile f)
    match image_files with
    | [f] => .ok f
    | fs => .error (.autodetectCount p.pageName fs)

/-- The record appended to `page_info_list` for a published page: the resolved
filename, the page directory name, and the normalized
`Storyline`/`Characters`/`Tags` fields. -/
def mkPageInfo (p : RawPage) (fn : String) : PageInfo :=
  { pageName := p.pageName
    postDate := p.postDate
    filename := fn
    storyline := p.storyline
    characters := str_to_list p.characters
    tags := str_to_list p.tags }

/-- The scanning loop of `get_page_info_list`: skip directories without
`info.ini`; count (and do not publish) pages whose post date is after the local
time unless `publish-all` is set; resolve the image filename of published pages
and append their records. Returns the unsorted record list and the scheduled
count. (The `delete-scheduled` flag only removes the skipped directory from
disk and does not affect the returned value, so it is not a parameter here; the
optional `extra_page_info_processing` theme hook is modelled as absent.) -/
def scanPages (autoDetect : Bool) (localTime : Int) (publishAll : Bool) :
    List RawPage → Except ScanError (List PageInfo × Nat)
  | [] => .ok ([], 0)
  | p :: rest =>
    if p.hasInfo = false then scanPages autoDetect localTime publishAll rest
    else if localTime < p.postDate ∧ publishAll = false then
      match scanPages autoDetect localTime publishAll rest with
      | .error e => .error e
      | .ok (l, c) => .ok (l, c + 1)
    else
      match resolveFilename autoDetect p with
      | .error e => .error e
      | .ok fn =>
        match scanPages autoDetect localTime publishAll rest with
        | .error e => .error e
        | .ok (l, c) => .ok (mkPageInfo p fn :: l, c)

/-- The sort key order of
`sorted(page_info_list, key=lambda x: (strptime(x["Post date"], date_format), x["page_name"]))`:
lexicographic on (parsed post date, page name). -/
def pageLE (a b : PageInfo) : Prop :=
  a.postDate < b.postDate ∨ (a.postDate = b.postDate ∧ pyStrLe a.pageName b.pageName = true)

instance : DecidableRel pageLE := fun a b => by
  unfold pageLE; infer_instance

theorem lexLe_total (a b : List Char) : lexLe a b = true ∨ lexLe b a = true := by
  induction a generalizing b with
  | nil => left; rfl
  | cons c cs ih =>
    cases b with
    | nil => right; rfl
    | cons d ds =>
      by_cases hcd : c = d
      · subst hcd
        rcases ih ds with h | h
        · left; simp [lexLe, h]
        · right; simp [lexLe, h]
      · rcases lt_trichotomy c d with h | h | h
        · left; simp [lexLe, hcd, h]
        · exact absurd h hcd
        · right; simp [lexLe, Ne.symm hcd, not_lt_of_lt h, h]

theorem lexLe_trans {a b c : List Char} (h₁ : lexLe a b = true) (h₂ : lexLe b c = true) :
    lexLe a c = true := by
  induction a generalizing b c with
  | nil => rfl
  | cons x xs ih =>
    cases b with
    | nil => simp [lexLe] at h₁
    | cons y ys =>
      cases c with
      | nil => simp [lexLe] at h₂
      | cons z zs =>
        by_cases hxy : x = y <;> by_cases hyz : y = z
        · subst hxy; subst hyz
          simp only [lexLe, if_pos rfl] at h₁ h₂ ⊢
          exact ih h₁ h₂
        · subst hxy
          simp only [lexLe, if_pos rfl] at h₁
          simpa [lexLe, hyz] using h₂
        · subst hyz
          simpa [lexLe, hxy] using h₁
        · simp only [lexLe, if_neg hxy, decide_eq_true_eq] at h₁
          simp only [lexLe, if_neg hyz, decide_eq_true_eq] at h₂
          have hxz : x < z := lt_trans h₁ h₂
          simp [lexLe, ne_of_lt hxz, hxz]

instance : IsTotal PageInfo pageLE where
  total a b := by
    unfold pageLE
    rcases lt_trichotomy a.postDate b.postDate with h | h | h
    · left; left; exact h
    · rcases lexLe_total a.pageName.toList b.pageName.toList with hs | hs
      · left; right; exact ⟨h, hs⟩
      · right; right; exact ⟨h.symm, hs⟩
    · right; left; exact h

instance : IsTrans PageInfo pageLE where
  trans a b c hab hbc := by
    unfold pageLE at *
    rcases hab with h₁ | ⟨e₁, s₁⟩ <;> rcases hbc with h₂ | ⟨e₂, s₂⟩
    · exact Or.inl (lt_trans h₁ h₂)
    · exact Or.inl (e₂ ▸ h₁)
    · exact Or.inl (e₁ ▸ h₂)
    · exact Or.inr ⟨e₁.trans e₂, lexLe_trans s₁ s₂⟩

/-- `get_page_info_list`, composed from the scanning loop and the final sort.
The configuration reads (`Date format`, `Timezone`, `Auto-detect comic images`)
and the clock read `datetime.now` appear as the `autoDetect` and `localTime`
parameters; `comic_folder` only selects the directory that produced `pages`. -/
def get_page_info_list (pages : List RawPage) (localTime : Int)
    (autoDetect publishAll : Bool) : Except ScanError (List PageInfo × Nat) :=
  match scanPages autoDetect localTime publishAll pages with
  | .error e => .error e
  | .ok (l, c) => .ok (l.insertionSort pageLE, c)

/-- The five navigation identifiers computed by `get_ids`. -/
structure NavIds where
  first_id : String
  previous_id : String
  current_id : String
  next_id : String
  last_id : String
deriving DecidableEq, Repr

/-- `get_ids(comic_list, index)`: Python's `comic_list[0]`,
`comic_list[max(0, index - 1)]`, `comic_list[index]`,
`comic_list[min(len(comic_list) - 1, index + 1)]`, `comic_list[-1]`.
(`max (0, index - 1)` over the integers equals truncated subtraction
`index - 1` over `Nat`.) -/
def get_ids (comic_list : List PageInfo) (index : Nat) (h : index < comic_list.length) :
    NavIds :=
  { first_id := (comic_list.get ⟨0, Nat.lt_of_le_of_lt (Nat.zero_le _) h⟩).pageName
    previous_id := (comic_list.get ⟨index - 1,
      Nat.lt_of_le_of_lt (Nat.sub_le _ _) h⟩).pageName
    current_id := (comic_list.get ⟨index, h⟩).pageName
    next_id := (comic_list.get ⟨min (comic_list.length - 1) (index + 1),
      Nat.lt_of_le_of_lt (Nat.min_le_left _ _)
        (Nat.sub_lt (Nat.lt_of_le_of_lt (Nat.zero_le _) h) Nat.one_pos)⟩).pageName
    last_id := (comic_list.get ⟨comic_list.length - 1,
      Nat.sub_lt (Nat.lt_of_le_of_lt (Nat.zero_le _) h) Nat.one_pos⟩).pageName }

/-- An assembled comic record (`comic_data` dict from `create_comic_data`),
restricted to the fields the group-indexing functions read: the page name, the
title, the `storyline` value (`None` or a string, with `""` also treated as
absent by `get_storylines`' falsy check), and the character and tag label
lists. The remaining render-only fields (paths, navigation ids, HTML bodies,
transcripts) are read by no claim and are omitted. -/
structure ComicData where
  pageName : String
  pageTitle : String
  storyline : Option String
  characters : List String
  tags : List String
deriving DecidableEq, Repr, Inhabited

/-- Python `not storyline` on an `Optional[str]`: true for `None` and `""`. -/
def falsyStoryline : Option String → Bool
  | none => true
  | some s => s = ""

/-- Insertion-ordered dict (`OrderedDict` / insertion-ordered `dict` /
`defaultdict(list)`) as an association list in key-insertion order. -/
abbrev ODict (α : Type) := List (String × List α)

/-- First-match key lookup (`d[k]` / `d.get(k)`). -/
def lookupKey {α : Type} (d : ODict α) (k : String) : Option (List α) :=
  (d.find? (fun kv => kv.1 = k)).map (fun kv => kv.2)

/-- `if k not in d: d[k] = []` followed by `d[k].append(v)` (also the effect of
`defaultdict(list)[k].append(v)`): append `v` to the bucket of `k`, creating
the bucket at the end of the insertion order when absent. -/
def dictAppend {α : Type} (d : ODict α) (k : String) (v : α) : ODict α :=
  match d with
  | [] => [(k, [v])]
  | (k', vs) :: rest =>
    if k' = k then (k', vs ++ [v]) :: rest else (k', vs) :: dictAppend rest k v

/-- `OrderedDict.move_to_end(k)`: relocate the binding of `k` to the end of the
insertion order (identity when `k` is absent; the source guards the call with a
membership test). -/
def moveKeyToEnd {α : Type} (d : ODict α) (k : String) : ODict α :=
  match lookupKey d k with
  | none => d
  | some vs => d.filter (fun kv => kv.1 ≠ k) ++ [(k, vs)]

/-- One iteration of the `get_storylines` loop: bucket the record by its
storyline label; falsy labels are dropped (`continue`) when
`show_uncategorized` is off and otherwise rerouted to `"Uncategorized"`.
(`comic_data.copy()` is a value in this embedding; the aliasing content of that
copy is verified separately on the heap model below.) -/
def storylineStep (show_uncategorized : Bool) (d : ODict ComicData)
    (comic_data : ComicData) : ODict ComicData :=
  if falsyStoryline comic_data.storyline then
    if !show_uncategorized then d
    else dictAppend d "Uncategorized" comic_data
  else dictAppend d (comic_data.storyline.getD "") comic_data

/-- `get_storylines(comic_data_dicts, show_uncategorized)`: bucket the records
in order, then move the `"Uncategorized"` bucket (when present) to the end. -/
def get_storylines (comic_data_dicts : List ComicData) (show_uncategorized : Bool) :
    ODict ComicData :=
  let storylines_dict := comic_data_dicts.foldl (storylineStep show_uncategorized) []
  if (lookupKey storylines_dict "Uncategorized").isSome then
    moveKeyToEnd storylines_dict "Uncategorized"
  else storylines_dict

/-- One iteration of the `write_tagged_pages` loop over `tags =
defaultdict(list)`: append the record to the bucket of each of its character
labels, then of each of its tag labels. (Each resulting (tag, bucket) pair is
later rendered to `tagged/{tag}/index.html`.) -/
def tagStep (tags : ODict ComicData) (page : ComicData) : ODict ComicData :=
  let tags := page.characters.foldl (fun t c => dictAppend t c page) tags
  page.tags.foldl (fun t tag => dictAppend t tag page) tags

/-- The `tags` index of `write_tagged_pages`, folded with `tagStep` over the
records; empty record lists return before building anything. -/
def write_tagged_pages (comic_data_dicts : List ComicData) : ODict ComicData :=
  if comic_data_dicts.isEmpty then []
  else comic_data_dicts.foldl tagStep []

/-! ### ThumbnailProcessor: the resize grammar and the save fallback

String manipulation is modelled on the underlying char lists. Python's
`str.strip()` removes whitespace from both ends (`Char.isWhitespace` models the
whitespace class on the characters the grammar can meet); `str.strip("%")`
removes `%` characters from both ends. Python `float` arithmetic is modelled by
exact rationals: every computation claimed about is exact in binary floating
point, and `int()` truncates toward zero. -/

/-- `s.strip(<class p>)`: drop the characters satisfying `p` from both ends. -/
def stripChars (p : Char → Bool) (l : List Char) : List Char :=
  ((l.dropWhile p).reverse.dropWhile p).reverse

/-- Python `str.strip()` (no argument): strip whitespace from both ends. -/
def pyStrip (l : List Char) : List Char := stripChars Char.isWhitespace l

/-- Split a char list at every separator character (the separators are
dropped), as Python `str.split(sep)` does for a one-character separator. -/
def splitOnSep (p : Char → Bool) : List Char → List (List Char)
  | [] => [[]]
  | c :: rest =>
    match splitOnSep p rest with
    | [] => [[c]]
    | h :: t => if p c then [] :: h :: t else (c :: h) :: t

/-- Python `str.split(",")` on a char list. -/
def splitComma (l : List Char) : List (List Char) := splitOnSep (fun c => c = ',') l

/-- The char-list ends with the given character (`str.endswith` for a
one-character suffix). -/
def lastIs (l : List Char) (c : Char) : Bool := l.getLast? = some c

/-- Numeric value of a digit string. -/
def digitsToNat (l : List Char) : Nat :=
  l.foldl (fun n c => n * 10 + (c.toNat - '0'.toNat)) 0

/-- The sign-and-digits core of Python `int(str)`, applied after the
whitespace strip. -/
def parsePyIntCore (s : List Char) : Except String Int :=
  match s with
  | '+' :: ds =>
    if ds ≠ [] ∧ ds.all Char.isDigit then .ok (digitsToNat ds) else .error "invalid int"
  | '-' :: ds =>
    if ds ≠ [] ∧ ds.all Char.isDigit then .ok (-(digitsToNat ds : Int)) else .error "invalid int"
  | ds =>
    if ds ≠ [] ∧ ds.all Char.isDigit then .ok (digitsToNat ds) else .error "invalid int"

/-- Python `int(str)`: optional surrounding whitespace, optional sign, then a
non-empty digit string; anything else raises `ValueError`. (Underscore digit
separators, accepted by CPython, are not modelled; no resize specification in
the claims contains one.) -/
def parsePyInt (l : List Char) : Except String Int :=
  parsePyIntCore (pyStrip l)

/-- An exact rational, kept unnormalized: the model of a Python float value
inside `resize`. Every float computation the claims evaluate is exact in
binary floating point, so exact rational arithmetic models it faithfully. -/
structure Frac where
  num : Int
  den : Int
deriving DecidableEq, Repr

/-- Embed an integer-valued float. -/
def fracOfInt (n : Int) : Frac := ⟨n, 1⟩

/-- Float multiplication. -/
def Frac.mul (a b : Frac) : Frac := ⟨a.num * b.num, a.den * b.den⟩

/-- Float division (`ZeroDivisionError` for a zero divisor is not modelled;
see `resize`). -/
def Frac.div (a b : Frac) : Frac := ⟨a.num * b.den, a.den * b.num⟩

/-- The sign-and-decimal core of Python `float(str)`, applied after the
whitespace strip: optional sign, digits with an optional fractional part (at
least one digit overall). (Exponent/`inf`/`nan` forms are not modelled; the
resize grammar never produces them.) -/
def parsePyFloatCore (s : List Char) : Except String Frac :=
  let signed : List Char × Int := match s with
    | '+' :: ds => (ds, 1)
    | '-' :: ds => (ds, -1)
    | ds => (ds, 1)
  match splitOnSep (fun c => c = '.') signed.1 with
  | [intPart, fracPart] =>
    if (intPart ≠ [] ∨ fracPart ≠ []) ∧ intPart.all Char.isDigit ∧
        fracPart.all Char.isDigit then
      .ok ⟨signed.2 * (digitsToNat intPart * 10 ^ fracPart.length +
        digitsToNat fracPart), (10 : Int) ^ fracPart.length⟩
    else .error "invalid float"
  | [intPart] =>
    if intPart ≠ [] ∧ intPart.all Char.isDigit then
      .ok ⟨signed.2 * digitsToNat intPart, 1⟩
    else .error "invalid float"
  | _ => .error "invalid float"

/-- Python `float(str)` (see `parsePyFloatCore` for the accepted forms). -/
def parsePyFloat (l : List Char) : Except String Frac :=
  parsePyFloatCore (pyStrip l)

/-- Python `int()` applied to a float: truncation toward zero. (`Int.tdiv`
also truncates toward zero, for either sign of numerator and denominator.) -/
def pytrunc (q : Frac) : Int := Int.tdiv q.num q.den

/-- The `ValueError`s `resize` can raise. `unknown` is the
`"Unknown resize value: ..."` error of the final `else`; the others are the
`ValueError`s of `int`/`float` conversion and of unpacking a `split(",")`
result that does not have exactly two parts. -/
inductive ResizeError where
  | unknown (size : List Char)
  | badInt
  | badFloat
  | unpack
deriving DecidableEq, Repr

/-- The comma branch of `resize`:
`w, h = size.strip().split(","); w, h = w.strip(), h.strip()` and the final
`int(w), int(h)` conversion. -/
def resizeComma (size : List Char) : Except ResizeError (Int × Int) :=
  match splitComma (pyStrip size) with
  | [ws, hs] =>
    match parsePyInt (pyStrip ws), parsePyInt (pyStrip hs) with
    | .ok w, .ok h => .ok (w, h)
    | _, _ => .error .badInt
  | _ => .error .unpack

/-- The `%` branch of `resize`: `size = float(size.strip().strip("%")) / 100`
scaling both dimensions. -/
def resizePercent (im_w im_h : Nat) (size : List Char) :
    Except ResizeError (Int × Int) :=
  match parsePyFloat (stripChars (fun c => c = '%') (pyStrip size)) with
  | .ok q =>
    let scale := q.div (fracOfInt 100)
    .ok (pytrunc ((fracOfInt im_w).mul scale), pytrunc ((fracOfInt im_h).mul scale))
  | .error _ => .error .badFloat

/-- The `h` branch of `resize`: `h = int(size[:-1].strip()); w = im_w / im_h * h`. -/
def resizeH (im_w im_h : Nat) (size : List Char) : Except ResizeError (Int × Int) :=
  match parsePyInt (pyStrip size.dropLast) with
  | .ok h => .ok (pytrunc (((fracOfInt im_w).div (fracOfInt im_h)).mul (fracOfInt h)), h)
  | .error _ => .error .badInt

/-- The `w` branch of `resize`: `w = int(size[:-1].strip()); h = im_h / im_w * w`. -/
def resizeW (im_w im_h : Nat) (size : List Char) : Except ResizeError (Int × Int) :=
  match parsePyInt (pyStrip size.dropLast) with
  | .ok w => .ok (w, pytrunc (((fracOfInt im_h).div (fracOfInt im_w)).mul (fracOfInt w)))
  | .error _ => .error .badInt

/-- `resize(im, size)` on an `im_w × im_h` source, returning the target size
passed to `im.resize((int(w), int(h)))`. The branch precedence mirrors the
`if`/`elif` chain: comma, then `%`, then `h`, then `w`, with the final `else`
raising the unknown-resize-specification error. (For the `h`/`w` branches with
a zero source dimension CPython would raise `ZeroDivisionError` where rational
division yields `0`; every claim evaluates on non-degenerate sources.) -/
def resize (im_w im_h : Nat) (size : List Char) : Except ResizeError (Int × Int) :=
  if size.contains ',' then resizeComma size
  else if lastIs size '%' then resizePercent im_w im_h size
  else if lastIs size 'h' then resizeH im_w im_h size
  else if lastIs size 'w' then resizeW im_w im_h size
  else .error (.unknown size)

/-- `resize` on a `String` specification. -/
def resizeStr (im_w im_h : Nat) (size : String) : Except ResizeError (Int × Int) :=
  resize im_w im_h size.toList

/-- An abstract PIL image: its mode string and an opaque payload standing for
the pixel data. -/
structure PILImage where
  mode : String
  payload : Nat
deriving DecidableEq, Repr

/-- `im.convert('RGB')`. -/
def convertRGB (im : PILImage) : PILImage := { im with mode := "RGB" }

/-- The recovery composite of `save_image`: `bg = Image.new("RGB", im.size,
"WHITE"); bg.paste(im, (0, 0), im)` — the image flattened onto an opaque white
RGB background. -/
def pasteOnWhite (im : PILImage) : PILImage :=
  { mode := "RGB", payload := im.payload + 1 }

/-- Errors of the external `Image.save` collaborator: PIL raises `OSError`
(whose message `save_image` inspects) or some other exception class. -/
inductive SaveError where
  | osError (msg : String)
  | otherError (msg : String)
deriving DecidableEq, Repr

/-- The `path.lower().endswith("jpg") or path.lower().endswith("jpeg")` test of
`save_image`. -/
def isJpegPath (path : String) : Bool :=
  let low := path.toList.map Char.toLower
  "jpg".toList.isSuffixOf low || "jpeg".toList.isSuffixOf low

/-- The image `save_image` hands to the first `im.save(path)` call: converted
to RGB first when saving to a `jpg`/`jpeg` path with a non-RGB mode. -/
def jpegNormalize (im : PILImage) (path : String) : PILImage :=
  if isJpegPath path ∧ im.mode ≠ "RGB" then convertRGB im else im

/-- `save_image(im, path)`, parameterized by the external save collaborator
`save`: try `im.save(path)` (after the JPEG mode normalization); on the
`OSError` whose message is exactly `"cannot write mode RGBA as JPEG"`, save the
white composite instead (errors of that second save propagate); every other
error re-raises unmodified. -/
def save_image (save : PILImage → String → Except SaveError Unit)
    (im : PILImage) (path : String) : Except SaveError Unit :=
  let im := jpegNormalize im path
  match save im path with
  | .ok () => .ok ()
  | .error (.osError msg) =>
    if msg = "cannot write mode RGBA as JPEG" then save (pasteOnWhite im) path
    else .error (.osError msg)
  | .error e => .error e

/-! ### ConfigResolver: satellite-site configuration layering

A resolved `RawConfigParser` is modelled as its list of sections in file
order, each section holding its options in order. `configparser` never
produces duplicate section names or duplicate option keys within a section;
that well-formedness is an explicit hypothesis where a proof needs it. -/

/-- The options of one configuration section. -/
abbrev CfgOptions := List (String × String)

/-- A resolved configuration: named sections in order. -/
abbrev Config := List (String × CfgOptions)

/-- `parser.has_section(name)`. -/
def hasSection (c : Config) (name : String) : Bool :=
  c.any (fun s => s.1 = name)

/-- The section named `name` (first match), if any. -/
def getSection (c : Config) (name : String) : Option CfgOptions :=
  (c.find? (fun s => s.1 = name)).map (fun s => s.2)

/-- First-match lookup of one option inside a section's options. -/
def optLookup (o : CfgOptions) (k : String) : Option String :=
  (o.find? (fun p => p.1 = k)).map (fun p => p.2)

/-- `parser.get(name, k)` as an `Option`. -/
def getOpt (c : Config) (name k : String) : Option String :=
  (getSection c name).bind (fun o => optLookup o k)

/-- `del parser[name]` after a successful membership check: drop the
section. -/
def removeSection (c : Config) (name : String) : Config :=
  c.filter (fun s => s.1 ≠ name)

/-- `parser.set(name, k, v)` on a section's options, as `parser.read` applies
it: overwrite the value of an existing key in place, else append the key at
the end. -/
def setOption (o : CfgOptions) (k v : String) : CfgOptions :=
  if o.any (fun p => p.1 = k) then
    o.map (fun p => if p.1 = k then (k, v) else p)
  else o ++ [(k, v)]

/-- Merging one parsed section into a configuration, as `parser.read` does:
set each option into the existing section, or append the whole section when
absent. -/
def mergeSection (c : Config) (name : String) (opts : CfgOptions) : Config :=
  if hasSection c name then
    c.map (fun s =>
      if s.1 = name then (s.1, opts.foldl (fun acc p => setOption acc p.1 p.2) s.2)
      else s)
  else c ++ [(name, opts)]

/-- `base.read(file)`: merge every section of `file` into `base`, in file
order. -/
def readMerge (base file : Config) : Config :=
  file.foldl (fun acc s => mergeSection acc s.1 s.2) base

/-- `get_extra_comic_info(folder_name, comic_info)`: deep-copy the main
configuration (the embedding is pure, so the argument is untouched by
construction), delete its `Pages` section, delete its `Links Bar` section when
the satellite's own file defines one, then `read` the satellite's file into
the copy. `del` on a missing section raises `KeyError`; that is the `Except`
error case. `extra` is the satellite's `comic_info.ini` as parsed on its
own. -/
def get_extra_comic_info (main extra : Config) : Except String Config :=
  if hasSection main "Pages" = false then .error "KeyError: Pages"
  else
    let c := removeSection main "Pages"
    if hasSection extra "Links Bar" then
      if hasSection c "Links Bar" = false then .error "KeyError: Links Bar"
      else .ok (readMerge (removeSection c "Links Bar") extra)
    else .ok (readMerge c extra)

/-- Well-formedness that `configparser` guarantees for any parsed
configuration: section names are distinct, and option keys are distinct
within each section. -/
def wfConfig (c : Config) : Prop :=
  (c.map Prod.fst).Nodup ∧ ∀ s ∈ c, (s.2.map Prod.fst).Nodup

/-! ### Heap model for the `comic_data.copy()` aliasing claim

`get_storylines` stores `comic_data.copy()` — a fresh dict object — in each
bucket, while `write_html_files` later mutates the original record dicts in
place (`comic_data_dict.update(global_values)`). To state that the index is
unaffected by that mutation, records are placed in an explicit heap of dict
objects addressed by position; the record list and the index buckets hold
addresses, and mutation is an in-place write. -/

/-- A heap of record objects; the address of a cell is its index, and
allocation appends. -/
abbrev Heap := List ComicData

/-- Dereference an address (addresses in use are always in bounds). -/
def readH (h : Heap) (a : Nat) : ComicData := (h.get? a).getD default

/-- In-place mutation of the object at address `a`. -/
def writeH (h : Heap) (a : Nat) (v : ComicData) : Heap := h.set a v

/-- One iteration of the `get_storylines` loop on the heap: read the record
dict, choose its bucket, allocate the `comic_data.copy()` as a fresh object
and append the copy's address to the bucket. -/
def storylineStepH (show_uncategorized : Bool) (acc : Heap × ODict Nat)
    (a : Nat) : Heap × ODict Nat :=
  let c := readH acc.1 a
  if falsyStoryline c.storyline then
    if !show_uncategorized then acc
    else (acc.1 ++ [c], dictAppend acc.2 "Uncategorized" acc.1.length)
  else (acc.1 ++ [c], dictAppend acc.2 (c.storyline.getD "") acc.1.length)

/-- `get_storylines` on the heap: bucket the copies of the records addressed
by `addrs`, then move `"Uncategorized"` to the end; returns the extended heap
and the index of copy addresses. -/
def get_storylinesH (h : Heap) (addrs : List Nat) (show_uncategorized : Bool) :
    Heap × ODict Nat :=
  let acc := addrs.foldl (storylineStepH show_uncategorized) (h, [])
  if (lookupKey acc.2 "Uncategorized").isSome then
    (acc.1, moveKeyToEnd acc.2 "Uncategorized")
  else acc

/-- The record mutation of `write_html_files`: for each record address in
order, replace the object in place by some function of its current value
(`comic_data_dict.update(global_values)` is one such function). -/
def updateAllH (h : Heap) (addrs : List Nat) (f : ComicData → ComicData) : Heap :=
  addrs.foldl (fun acc a => writeH acc a (f (readH acc a))) h

/-- Read an index of addresses back into an index of record values. -/
def readIndex (h : Heap) (d : ODict Nat) : ODict ComicData :=
  d.map (fun kb => (kb.1, kb.2.map (readH h)))

/-! ## Claims -/

/-- C2: for every non-empty page list and in-range index, `get_ids` returns
first/last/current as the ids of the first, last and `i`-th elements, clamps
`previous`/`next` at the boundaries (`previous == first == current` at index
`0`; `next == last == current` at the last index), and returns five equal ids
for a one-element list. (The claim speaks of sorted lists; the property holds
for every list, sorted or not.) -/
theorem get_ids_spec (l : List PageInfo) (i : Nat) (h : i < l.length) :
    (get_ids l i h).first_id = (l.getD 0 default).pageName ∧
    (get_ids l i h).current_id = (l.getD i default).pageName ∧
    (get_ids l i h).last_id = (l.getD (l.length - 1) default).pageName ∧
    (i = 0 → (get_ids l i h).previous_id = (get_ids l i h).first_id ∧
      (get_ids l i h).first_id = (get_ids l i h).current_id) ∧
    (i = l.length - 1 → (get_ids l i h).next_id = (get_ids l i h).last_id ∧
      (get_ids l i h).last_id = (get_ids l i h).current_id) ∧
    (l.length = 1 →
      (get_ids l i h).first_id = (get_ids l i h).previous_id ∧
      (get_ids l i h).first_id = (get_ids l i h).current_id ∧
      (get_ids l i h).first_id = (get_ids l i h).next_id ∧
      (get_ids l i h).first_id = (get_ids l i h).last_id) := by
  have hlen : 0 < l.length := Nat.lt_of_le_of_lt (Nat.zero_le _) h
  refine ⟨?_, ?_, ?_, ?_, ?_, ?_⟩
  · simp [get_ids, List.getElem?_eq_getElem hlen]
  · simp [get_ids, List.getElem?_eq_getElem h]
  · simp [get_ids, List.getElem?_eq_getElem (Nat.sub_lt hlen Nat.one_pos)]
  · intro hi
    subst hi
    simp [get_ids]
  · intro hi
    subst hi
    have hmin : min (l.length - 1) (l.length - 1 + 1) = l.length - 1 := by omega
    simp only [get_ids, hmin, and_self]
  · intro hone
    have hi : i = 0 := by omega
    subst hi
    have h₁ : l.length - 1 = 0 := by omega
    have hmin : (0 : Nat) ⊓ (0 + 1) = 0 := by omega
    simp only [get_ids, h₁, hmin, Nat.zero_sub, and_self]

/-- C2 witness: the single-element instance. -/
theorem get_ids_spec_witness :
    letI p : PageInfo :=
      { pageName := "page1", postDate := 0, filename := "a.png",
        storyline := "", characters := [], tags := [] }
    (get_ids [p] 0 (by decide)).first_id = ([p].getD 0 default).pageName ∧
    (get_ids [p] 0 (by decide)).current_id = ([p].getD 0 default).pageName ∧
    (get_ids [p] 0 (by decide)).last_id =
      ([p].getD ([p].length - 1) default).pageName ∧
    ((0 : Nat) = 0 → (get_ids [p] 0 (by decide)).previous_id =
        (get_ids [p] 0 (by decide)).first_id ∧
      (get_ids [p] 0 (by decide)).first_id = (get_ids [p] 0 (by decide)).current_id) ∧
    ((0 : Nat) = [p].length - 1 → (get_ids [p] 0 (by decide)).next_id =
        (get_ids [p] 0 (by decide)).last_id ∧
      (get_ids [p] 0 (by decide)).last_id = (get_ids [p] 0 (by decide)).current_id) ∧
    ([p].length = 1 →
      (get_ids [p] 0 (by decide)).first_id = (get_ids [p] 0 (by decide)).previous_id ∧
      (get_ids [p] 0 (by decide)).first_id = (get_ids [p] 0 (by decide)).current_id ∧
      (get_ids [p] 0 (by decide)).first_id = (get_ids [p] 0 (by decide)).next_id ∧
      (get_ids [p] 0 (by decide)).first_id = (get_ids [p] 0 (by decide)).last_id) :=
  get_ids_spec _ 0 (by decide)

/-- C6: the resize grammar, evaluated with the `if`/`elif` precedence comma,
then `%`, then `h`, then `w` (the precedence is the branch structure of
`resize`): `"100, 36"` yields exactly `(100, 36)` on any source, `"50%"` on a
200×100 source yields `(100, 50)`, `"40h"` yields `(80, 40)`, `"80w"` yields
`(80, 40)`, and every string matching none of the four forms (no comma, not
ending in `%`, `h` or `w`) raises the unknown-resize-specification
`ValueError`. -/
theorem resize_grammar_spec :
    (∀ im_w im_h : Nat, resizeStr im_w im_h "100, 36" = .ok (100, 36)) ∧
    resizeStr 200 100 "50%" = .ok (100, 50) ∧
    resizeStr 200 100 "40h" = .ok (80, 40) ∧
    resizeStr 200 100 "80w" = .ok (80, 40) ∧
    (∀ (im_w im_h : Nat) (s : List Char),
      s.contains ',' = false → lastIs s '%' = false → lastIs s 'h' = false →
      lastIs s 'w' = false → resize im_w im_h s = .error (.unknown s)) := by
  refine ⟨fun im_w im_h => rfl, by decide, by decide, by decide, ?_⟩
  intro im_w im_h s h₁ h₂ h₃ h₄
  unfold resize
  rw [h₁, h₂, h₃, h₄]
  simp

/-- C6 witness: the quantified conjuncts instantiated (`"100, 36"` on a 7×9
source; the no-form string `"abc"`). -/
theorem resize_grammar_spec_witness :
    resizeStr 7 9 "100, 36" = .ok (100, 36) ∧
    resize 200 100 "abc".toList = .error (.unknown "abc".toList) :=
  ⟨resize_grammar_spec.1 7 9,
   resize_grammar_spec.2.2.2.2 200 100 "abc".toList (by decide) (by decide)
     (by decide) (by decide)⟩

/-- C9: `save_image` routing around the external save collaborator: when the
first save fails with the `OSError` message `"cannot write mode RGBA as
JPEG"`, the result is that of saving the opaque white composite instead; every
other save error propagates unmodified; a successful save succeeds. -/
theorem save_image_alpha_fallback (save : PILImage → String → Except SaveError Unit)
    (im : PILImage) (path : String) :
    (save (jpegNormalize im path) path =
        .error (.osError "cannot write mode RGBA as JPEG") →
      save_image save im path = save (pasteOnWhite (jpegNormalize im path)) path) ∧
    (∀ e : SaveError,
      save (jpegNormalize im path) path = .error e →
      e ≠ .osError "cannot write mode RGBA as JPEG" →
      save_image save im path = .error e) ∧
    (save (jpegNormalize im path) path = .ok () →
      save_image save im path = .ok ()) := by
  refine ⟨?_, ?_, ?_⟩
  · intro hsave
    simp [save_image, hsave]
  · intro e hsave hne
    cases e with
    | osError msg =>
      have hmsg : msg ≠ "cannot write mode RGBA as JPEG" := by
        intro hcontra
        exact hne (by rw [hcontra])
      simp [save_image, hsave, hmsg]
    | otherError msg => simp [save_image, hsave]
  · intro hsave
    simp [save_image, hsave]

/-- C9 witness: a collaborator that rejects RGBA saves with the exact alpha
`OSError`; `save_image` then saves the white composite (and succeeds), while a
disk-full `OSError` propagates unmodified. -/
theorem save_image_alpha_fallback_witness :
    letI saveF : PILImage → String → Except SaveError Unit := fun im _ =>
      if im.mode = "RGBA" then .error (.osError "cannot write mode RGBA as JPEG")
      else .ok ()
    letI saveFull : PILImage → String → Except SaveError Unit := fun _ _ =>
      .error (.osError "no space left on device")
    letI im : PILImage := { mode := "RGBA", payload := 0 }
    (save_image saveF im "thumbnail.png" =
      saveF (pasteOnWhite (jpegNormalize im "thumbnail.png")) "thumbnail.png") ∧
    save_image saveFull im "thumbnail.png" =
      .error (.osError "no space left on device") :=
  ⟨(save_image_alpha_fallback _ _ "thumbnail.png").1 (by decide),
   (save_image_alpha_fallback _ _ "thumbnail.png").2.1
     (.osError "no space left on device") (by decide) (by decide)⟩

/-! ### Ordered-dict lemmas shared by the indexing claims -/

theorem lookupKey_cons {α : Type} (a : String) (b : List α) (t : ODict α) (k : String) :
    lookupKey ((a, b) :: t) k = if a = k then some b else lookupKey t k := by
  rcases h : decide (a = k) with _ | _
  · simp at h
    simp [lookupKey, List.find?_cons, h]
  · simp at h
    simp [lookupKey, List.find?_cons, h]

theorem lookupKey_dictAppend {α : Type} (d : ODict α) (k : String) (v : α) (k' : String) :
    lookupKey (dictAppend d k v) k' =
      if k' = k then some ((lookupKey d k).getD [] ++ [v]) else lookupKey d k' := by
  induction d with
  | nil =>
    by_cases h : k' = k
    · subst h
      simp [dictAppend, lookupKey_cons, lookupKey]
    · simp [dictAppend, lookupKey_cons, lookupKey, Ne.symm h, h]
  | cons hd tl ih =>
    obtain ⟨k₀, vs₀⟩ := hd
    by_cases h₀ : k₀ = k
    · subst h₀
      by_cases h' : k' = k₀
      · subst h'
        simp [dictAppend, lookupKey_cons]
      · simp [dictAppend, lookupKey_cons, Ne.symm h', h']
    · by_cases h' : k' = k₀
      · subst h'
        simp [dictAppend, h₀, lookupKey_cons, Ne.symm h₀]
      · simp [dictAppend, h₀, lookupKey_cons, Ne.symm h', ih]

theorem lookupKey_labelFold {α : Type} (labels : List String) (p : α) (d : ODict α)
    (k : String) :
    lookupKey (labels.foldl (fun t lb => dictAppend t lb p) d) k =
      if labels.count k = 0 then lookupKey d k
      else some ((lookupKey d k).getD [] ++ List.replicate (labels.count k) p) := by
  induction labels generalizing d with
  | nil => simp
  | cons lb rest ih =>
    rw [List.foldl_cons, ih]
    by_cases h : lb = k
    · subst h
      by_cases hz : rest.count lb = 0
      · simp [lookupKey_dictAppend, hz]
      · simp [lookupKey_dictAppend, hz, List.replicate_succ]
    · rw [List.count_cons_of_ne (Ne.symm h)]
      simp [lookupKey_dictAppend, Ne.symm h]

theorem lookupKey_labelFold_getD {α : Type} (labels : List String) (p : α) (d : ODict α)
    (k : String) :
    (lookupKey (labels.foldl (fun t lb => dictAppend t lb p) d) k).getD [] =
      (lookupKey d k).getD [] ++ List.replicate (labels.count k) p := by
  rw [lookupKey_labelFold]
  by_cases hz : labels.count k = 0 <;> simp [hz]

theorem lookupKey_labelFold_none {α : Type} (labels : List String) (p : α) (d : ODict α)
    (k : String) :
    (lookupKey (labels.foldl (fun t lb => dictAppend t lb p) d) k = none ↔
      lookupKey d k = none ∧ labels.count k = 0) := by
  rw [lookupKey_labelFold]
  by_cases hz : labels.count k = 0 <;> simp [hz]

theorem lookupKey_tagStep_getD (d : ODict ComicData) (page : ComicData) (k : String) :
    (lookupKey (tagStep d page) k).getD [] =
      (lookupKey d k).getD [] ++
        List.replicate (page.characters.count k + page.tags.count k) page := by
  unfold tagStep
  rw [lookupKey_labelFold_getD, lookupKey_labelFold_getD, List.append_assoc,
    ← List.replicate_add]

theorem lookupKey_tagStep_none (d : ODict ComicData) (page : ComicData) (k : String) :
    (lookupKey (tagStep d page) k = none ↔
      lookupKey d k = none ∧ page.characters.count k + page.tags.count k = 0) := by
  unfold tagStep
  rw [lookupKey_labelFold_none, lookupKey_labelFold_none]
  simp only [Nat.add_eq_zero]
  tauto

theorem lookupKey_tagFold_getD (recs : List ComicData) (d : ODict ComicData) (k : String) :
    (lookupKey (recs.foldl tagStep d) k).getD [] =
      (lookupKey d k).getD [] ++
        recs.flatMap
          (fun p => List.replicate (p.characters.count k + p.tags.count k) p) := by
  induction recs generalizing d with
  | nil => simp
  | cons p rest ih =>
    rw [List.foldl_cons, ih, lookupKey_tagStep_getD, List.flatMap_cons,
      List.append_assoc]

theorem lookupKey_tagFold_none (recs : List ComicData) (d : ODict ComicData) (k : String) :
    (lookupKey (recs.foldl tagStep d) k = none ↔
      lookupKey d k = none ∧
        recs.flatMap
          (fun p => List.replicate (p.characters.count k + p.tags.count k) p) = []) := by
  induction recs generalizing d with
  | nil => simp
  | cons p rest ih =>
    rw [List.foldl_cons, ih, lookupKey_tagStep_none, List.flatMap_cons,
      List.append_eq_nil, List.replicate_eq_nil_iff]
    tauto

/-- C5 counterexample: the record with characters `["y"]` and tags
`["x","y"]` appears TWICE in bucket `y` (once per qualifying field), not
exactly once as the claim states. -/
theorem write_tagged_pages_y_twice :
    ((lookupKey
        (write_tagged_pages
          [{ pageName := "p1", pageTitle := "t1", storyline := none,
             characters := ["y"], tags := ["x", "y"] }]) "y").getD []).count
      { pageName := "p1", pageTitle := "t1", storyline := none,
        characters := ["y"], tags := ["x", "y"] } = 2 := by decide

/-- C5 amended: `write_tagged_pages` places each record in the bucket of every
character label and every tag label it carries, once per occurrence of the
label among the two fields (character occurrences first) — so the record with
tags `["x","y"]` and characters `["y"]` lands once in bucket `x` and twice in
bucket `y`; bucket contents follow the original record order, with a record's
multiple appearances adjacent. -/
theorem write_tagged_pages_spec :
    (∀ (recs : List ComicData) (k : String),
      lookupKey (write_tagged_pages recs) k =
        (let vs := recs.flatMap
            (fun p => List.replicate (p.characters.count k + p.tags.count k) p)
         if vs.isEmpty then none else some vs)) ∧
    ((lookupKey
        (write_tagged_pages
          [{ pageName := "p1", pageTitle := "t1", storyline := none,
             characters := ["y"], tags := ["x", "y"] }]) "x") =
      some [{ pageName := "p1", pageTitle := "t1", storyline := none,
              characters := ["y"], tags := ["x", "y"] }] ∧
     (lookupKey
        (write_tagged_pages
          [{ pageName := "p1", pageTitle := "t1", storyline := none,
             characters := ["y"], tags := ["x", "y"] }]) "y") =
      some [{ pageName := "p1", pageTitle := "t1", storyline := none,
              characters := ["y"], tags := ["x", "y"] },
            { pageName := "p1", pageTitle := "t1", storyline := none,
              characters := ["y"], tags := ["x", "y"] }]) := by
  refine ⟨?_, by decide, by decide⟩
  intro recs k
  show lookupKey (write_tagged_pages recs) k = _
  unfold write_tagged_pages
  rcases hrecs : recs with _ | ⟨p, rest⟩
  · simp [lookupKey]
  · simp only [List.isEmpty_cons, ite_false, Bool.false_eq_true]
    rcases hvs : (p :: rest).flatMap
        (fun q => List.replicate (q.characters.count k + q.tags.count k) q) with _ | ⟨v, vs⟩
    · simp only [List.isEmpty_nil, ite_true]
      rw [lookupKey_tagFold_none]
      exact ⟨rfl, hvs⟩
    · have hne : lookupKey ((p :: rest).foldl tagStep []) k ≠ none := by
        intro hnone
        rw [lookupKey_tagFold_none, hvs] at hnone
        simp at hnone
      obtain ⟨w, hw⟩ := Option.ne_none_iff_exists'.mp hne
      have hval := lookupKey_tagFold_getD (p :: rest) [] k
      rw [hw, hvs] at hval
      simp only [Option.getD_some] at hval
      rw [hw, hval]
      simp [lookupKey]

/-! ### Storyline-index lemmas -/

/-- The effective storyline bucket of a record, `none` when the record is
dropped: the branch structure of the `get_storylines` loop as a label
function. -/
def storylineLabel (show_uncategorized : Bool) (c : ComicData) : Option String :=
  if falsyStoryline c.storyline then
    if !show_uncategorized then none else some "Uncategorized"
  else some (c.storyline.getD "")

theorem storylineStep_eq (sh : Bool) (d : ODict ComicData) (c : ComicData) :
    storylineStep sh d c =
      match storylineLabel sh c with
      | none => d
      | some k => dictAppend d k c := by
  unfold storylineStep storylineLabel
  rcases hf : falsyStoryline c.storyline <;> rcases hs : sh <;> simp [hf, hs]

theorem lookupKey_dictAppend_getD {α : Type} (d : ODict α) (k : String) (v : α)
    (k' : String) :
    (lookupKey (dictAppend d k v) k').getD [] =
      if k' = k then (lookupKey d k).getD [] ++ [v] else (lookupKey d k').getD [] := by
  rw [lookupKey_dictAppend]
  by_cases h : k' = k <;> simp [h]

theorem lookupKey_dictAppend_none {α : Type} (d : ODict α) (k : String) (v : α)
    (k' : String) :
    (lookupKey (dictAppend d k v) k' = none ↔ k' ≠ k ∧ lookupKey d k' = none) := by
  rw [lookupKey_dictAppend]
  by_cases h : k' = k <;> simp [h]

theorem lookupKey_storyFold_getD (sh : Bool) (recs : List ComicData)
    (d : ODict ComicData) (k : String) :
    (lookupKey (recs.foldl (storylineStep sh) d) k).getD [] =
      (lookupKey d k).getD [] ++
        recs.filter (fun c => storylineLabel sh c = some k) := by
  induction recs generalizing d with
  | nil => simp
  | cons c rest ih =>
    rw [List.foldl_cons, ih, storylineStep_eq]
    rcases hl : storylineLabel sh c with _ | k'
    · simp [List.filter_cons, hl]
    · by_cases h : k' = k
      · subst h
        simp [List.filter_cons, hl, lookupKey_dictAppend_getD]
      · have h' : ¬k = k' := fun hc => h hc.symm
        simp [List.filter_cons, hl, lookupKey_dictAppend_getD, h, h']

theorem lookupKey_storyFold_none (sh : Bool) (recs : List ComicData)
    (d : ODict ComicData) (k : String) :
    (lookupKey (recs.foldl (storylineStep sh) d) k = none ↔
      lookupKey d k = none ∧
        recs.filter (fun c => storylineLabel sh c = some k) = []) := by
  induction recs generalizing d with
  | nil => simp
  | cons c rest ih =>
    rw [List.foldl_cons, ih, storylineStep_eq]
    rcases hl : storylineLabel sh c with _ | k'
    · simp [List.filter_cons, hl]
    · by_cases h : k' = k
      · subst h
        simp [List.filter_cons, hl, lookupKey_dictAppend_none]
      · have h' : ¬k = k' := fun hc => h hc.symm
        simp [List.filter_cons, hl, lookupKey_dictAppend_none, h, h']

theorem keys_dictAppend {α : Type} (d : ODict α) (k : String) (v : α) :
    (dictAppend d k v).map Prod.fst =
      if k ∈ d.map Prod.fst then d.map Prod.fst else d.map Prod.fst ++ [k] := by
  induction d with
  | nil => simp [dictAppend]
  | cons hd tl ih =>
    obtain ⟨k₀, vs₀⟩ := hd
    by_cases h : k₀ = k
    · subst h
      simp [dictAppend]
    · by_cases hmem : k ∈ tl.map Prod.fst <;>
        simp [dictAppend, h, Ne.symm h, ih, hmem]

/-- First-appearance order of a label sequence: the insertion order the
ordered dict produces. -/
def firstSeen (labels : List String) : List String :=
  labels.foldl (fun ks k => if k ∈ ks then ks else ks ++ [k]) []

theorem keys_storyFold (sh : Bool) (recs : List ComicData) (d : ODict ComicData) :
    (recs.foldl (storylineStep sh) d).map Prod.fst =
      (recs.filterMap (storylineLabel sh)).foldl
        (fun ks k => if k ∈ ks then ks else ks ++ [k]) (d.map Prod.fst) := by
  induction recs generalizing d with
  | nil => simp
  | cons c rest ih =>
    rw [List.foldl_cons, ih, storylineStep_eq]
    rcases hl : storylineLabel sh c with _ | k'
    · simp [List.filterMap_cons, hl]
    · simp [List.filterMap_cons, hl, keys_dictAppend]

theorem mem_keys_iff_lookup {α : Type} (d : ODict α) (k : String) :
    k ∈ d.map Prod.fst ↔ (lookupKey d k).isSome := by
  induction d with
  | nil => simp [lookupKey]
  | cons hd tl ih =>
    obtain ⟨k₀, vs₀⟩ := hd
    by_cases h : k₀ = k
    · subst h
      simp [lookupKey_cons]
    · simp [lookupKey_cons, h, Ne.symm h, ih]

theorem lookupKey_filter_ne {α : Type} (d : ODict α) (k k' : String) (h : k' ≠ k) :
    lookupKey (d.filter (fun kv => kv.1 ≠ k)) k' = lookupKey d k' := by
  induction d with
  | nil => rfl
  | cons hd tl ih =>
    simp only [decide_not] at ih ⊢
    obtain ⟨k₀, vs₀⟩ := hd
    by_cases h₀ : k₀ = k
    · subst h₀
      simp [List.filter_cons, lookupKey_cons, Ne.symm h, ih]
    · by_cases h' : k₀ = k'
      · subst h'
        simp [List.filter_cons, h₀, lookupKey_cons]
      · simp [List.filter_cons, h₀, lookupKey_cons, h', ih]

theorem lookupKey_filter_self {α : Type} (d : ODict α) (k : String) :
    lookupKey (d.filter (fun kv => kv.1 ≠ k)) k = none := by
  induction d with
  | nil => rfl
  | cons hd tl ih =>
    simp only [decide_not] at ih ⊢
    obtain ⟨k₀, vs₀⟩ := hd
    by_cases h₀ : k₀ = k
    · subst h₀
      simp [List.filter_cons, ih]
    · simp [List.filter_cons, h₀, lookupKey_cons, ih]

theorem lookupKey_append {α : Type} (d₁ d₂ : ODict α) (k : String) :
    lookupKey (d₁ ++ d₂) k = (lookupKey d₁ k).or (lookupKey d₂ k) := by
  unfold lookupKey
  rw [List.find?_append]
  rcases h₁ : List.find? (fun kv => decide (kv.1 = k)) d₁ with _ | kv <;> simp [h₁]

theorem lookupKey_moveKeyToEnd {α : Type} (d : ODict α) (k k' : String) :
    lookupKey (moveKeyToEnd d k) k' = lookupKey d k' := by
  unfold moveKeyToEnd
  rcases hl : lookupKey d k with _ | vs
  · rfl
  · by_cases h : k' = k
    · subst h
      rw [lookupKey_append, lookupKey_filter_self]
      simp [lookupKey_cons, hl]
    · have h' : ¬k = k' := fun hc => h hc.symm
      rw [lookupKey_append, lookupKey_filter_ne d k k' h]
      rcases hk' : lookupKey d k' with _ | vs' <;>
        simp [hk', lookupKey_cons, h', lookupKey]

theorem map_fst_filter_ne {α : Type} (d : ODict α) (k : String) :
    (d.filter (fun kv => kv.1 ≠ k)).map Prod.fst =
      (d.map Prod.fst).filter (fun x => x ≠ k) := by
  induction d with
  | nil => rfl
  | cons hd tl ih =>
    simp only [decide_not] at ih ⊢
    obtain ⟨k₀, vs₀⟩ := hd
    by_cases h₀ : k₀ = k <;> simp [List.filter_cons, h₀, ih]

theorem keys_moveKeyToEnd {α : Type} (d : ODict α) (k : String) (vs : List α)
    (h : lookupKey d k = some vs) :
    (moveKeyToEnd d k).map Prod.fst =
      (d.map Prod.fst).filter (fun x => x ≠ k) ++ [k] := by
  unfold moveKeyToEnd
  rw [h, List.map_append, map_fst_filter_ne]
  rfl

/-- C4: `get_storylines` buckets records by storyline label in
first-appearance order; falsy-storyline records are dropped when uncategorized
display is off and otherwise go to the reserved `"Uncategorized"` bucket,
which, when present, is relocated to the end while every other bucket keeps
its first-seen position (the key list); each bucket holds exactly its records
in original order (the lookup characterization); and the `["A", null, "B",
null]` example produces index order `["A", "B", "Uncategorized"]` with the two
null-storyline records in the `"Uncategorized"` bucket in original order. -/
theorem get_storylines_spec :
    (∀ (recs : List ComicData) (sh : Bool),
      (get_storylines recs sh).map Prod.fst =
        (let ks := firstSeen (recs.filterMap (storylineLabel sh))
         if "Uncategorized" ∈ ks then
           ks.filter (fun x => x ≠ "Uncategorized") ++ ["Uncategorized"]
         else ks)) ∧
    (∀ (recs : List ComicData) (sh : Bool) (k : String),
      lookupKey (get_storylines recs sh) k =
        (let vs := recs.filter (fun c => storylineLabel sh c = some k)
         if vs.isEmpty then none else some vs)) ∧
    ((get_storylines
        [{ pageName := "001", pageTitle := "A1", storyline := some "A",
           characters := [], tags := [] },
         { pageName := "002", pageTitle := "U1", storyline := none,
           characters := [], tags := [] },
         { pageName := "003", pageTitle := "B1", storyline := some "B",
           characters := [], tags := [] },
         { pageName := "004", pageTitle := "U2", storyline := none,
           characters := [], tags := [] }] true).map Prod.fst =
        ["A", "B", "Uncategorized"] ∧
     lookupKey
        (get_storylines
          [{ pageName := "001", pageTitle := "A1", storyline := some "A",
             characters := [], tags := [] },
           { pageName := "002", pageTitle := "U1", storyline := none,
             characters := [], tags := [] },
           { pageName := "003", pageTitle := "B1", storyline := some "B",
             characters := [], tags := [] },
           { pageName := "004", pageTitle := "U2", storyline := none,
             characters := [], tags := [] }] true) "Uncategorized" =
        some
          [{ pageName := "002", pageTitle := "U1", storyline := none,
             characters := [], tags := [] },
           { pageName := "004", pageTitle := "U2", storyline := none,
             characters := [], tags := [] }]) := by
  have hkeys : ∀ (recs : List ComicData) (sh : Bool),
      (recs.foldl (storylineStep sh) []).map Prod.fst =
        firstSeen (recs.filterMap (storylineLabel sh)) := by
    intro recs sh
    exact keys_storyFold sh recs []
  refine ⟨?_, ?_, by decide, by decide⟩
  · intro recs sh
    show (get_storylines recs sh).map Prod.fst = _
    unfold get_storylines
    simp only []
    have hmem : ("Uncategorized" ∈ firstSeen (recs.filterMap (storylineLabel sh))) ↔
        (lookupKey (recs.foldl (storylineStep sh) []) "Uncategorized").isSome := by
      rw [← hkeys]
      exact mem_keys_iff_lookup _ _
    rcases hD : lookupKey (recs.foldl (storylineStep sh) []) "Uncategorized"
      with _ | vs
    · have hnotmem : ¬ "Uncategorized" ∈ firstSeen (recs.filterMap (storylineLabel sh)) := by
        rw [hmem, hD]
        simp
      simp only [hD, Option.isSome_none, Bool.false_eq_true, ite_false, hnotmem,
        ite_false, hkeys]
    · have hismem : "Uncategorized" ∈ firstSeen (recs.filterMap (storylineLabel sh)) := by
        rw [hmem, hD]
        simp
      simp only [hD, Option.isSome_some, ite_true, hismem]
      rw [keys_moveKeyToEnd _ _ vs hD, hkeys]
  · intro recs sh k
    show lookupKey (get_storylines recs sh) k = _
    unfold get_storylines
    simp only []
    have hlook : lookupKey
        (if (lookupKey (recs.foldl (storylineStep sh) []) "Uncategorized").isSome then
          moveKeyToEnd (recs.foldl (storylineStep sh) []) "Uncategorized"
        else recs.foldl (storylineStep sh) []) k =
        lookupKey (recs.foldl (storylineStep sh) []) k := by
      by_cases hD : (lookupKey (recs.foldl (storylineStep sh) []) "Uncategorized").isSome
      · rw [if_pos hD, lookupKey_moveKeyToEnd]
      · rw [if_neg hD]
    rw [hlook]
    rcases hvs : recs.filter (fun c => storylineLabel sh c = some k) with _ | ⟨v, rest⟩
    · simp only [List.isEmpty_nil, ite_true]
      rw [lookupKey_storyFold_none]
      exact ⟨rfl, hvs⟩
    · have hne : lookupKey (recs.foldl (storylineStep sh) []) k ≠ none := by
        intro hnone
        rw [lookupKey_storyFold_none, hvs] at hnone
        simp at hnone
      obtain ⟨w, hw⟩ := Option.ne_none_iff_exists'.mp hne
      have hval := lookupKey_storyFold_getD sh recs [] k
      rw [hw, hvs] at hval
      simp only [Option.getD_some] at hval
      rw [hw, hval]
      simp [lookupKey]

/-! ### Scanner lemmas -/

theorem scanPages_names_sublist (aD : Bool) (t : Int) (pub : Bool) :
    ∀ (pages : List RawPage) (l : List PageInfo) (c : Nat),
      scanPages aD t pub pages = .ok (l, c) →
      List.Sublist (l.map PageInfo.pageName) (pages.map RawPage.pageName) := by
  intro pages
  induction pages with
  | nil =>
    intro l c h
    simp only [scanPages, Except.ok.injEq, Prod.mk.injEq] at h
    rw [← h.1]
    simp
  | cons p rest ih =>
    intro l c h
    unfold scanPages at h
    split at h
    · exact (ih l c h).cons _
    · split at h
      · split at h
        · cases h
        · rename_i l₀ c₀ heq
          simp only [Except.ok.injEq, Prod.mk.injEq] at h
          rw [← h.1]
          exact (ih l₀ c₀ heq).cons _
      · split at h
        · cases h
        · rename_i fn heq
          split at h
          · cases h
          · rename_i l₀ c₀ hrec
            simp only [Except.ok.injEq, Prod.mk.injEq] at h
            rw [← h.1]
            exact (ih l₀ c₀ hrec).cons₂ _

theorem scanPages_append (aD : Bool) (t : Int) (pub : Bool) (xs ys : List RawPage) :
    scanPages aD t pub (xs ++ ys) =
      match scanPages aD t pub xs with
      | .error e => .error e
      | .ok (l₁, c₁) =>
        match scanPages aD t pub ys with
        | .error e => .error e
        | .ok (l₂, c₂) => .ok (l₁ ++ l₂, c₁ + c₂) := by
  induction xs with
  | nil =>
    rcases h : scanPages aD t pub ys with e | ⟨l, c⟩ <;> simp [scanPages, h]
  | cons p xs ih =>
    rw [List.cons_append]
    by_cases h₁ : p.hasInfo = false
    · simp only [scanPages, if_pos h₁]
      exact ih
    · by_cases h₂ : t < p.postDate ∧ pub = false
      · simp only [scanPages, if_neg h₁, if_pos h₂, ih]
        rcases scanPages aD t pub xs with e | ⟨l₁, c₁⟩ <;>
          rcases scanPages aD t pub ys with e' | ⟨l₂, c₂⟩ <;>
            simp [Nat.add_right_comm]
      · simp only [scanPages, if_neg h₁, if_neg h₂, ih]
        rcases resolveFilename aD p with e | fn <;>
          rcases scanPages aD t pub xs with e' | ⟨l₁, c₁⟩ <;>
            rcases scanPages aD t pub ys with e'' | ⟨l₂, c₂⟩ <;> simp

theorem scanPages_published_past (aD : Bool) (t : Int) :
    ∀ (pages : List RawPage) (l : List PageInfo) (c : Nat),
      scanPages aD t false pages = .ok (l, c) → ∀ q ∈ l, ¬ t < q.postDate := by
  intro pages
  induction pages with
  | nil =>
    intro l c h
    simp only [scanPages, Except.ok.injEq, Prod.mk.injEq] at h
    rw [← h.1]
    simp
  | cons p rest ih =>
    intro l c h
    unfold scanPages at h
    split at h
    · exact ih l c h
    · split at h
      · split at h
        · cases h
        · rename_i l₀ c₀ heq
          simp only [Except.ok.injEq, Prod.mk.injEq] at h
          rw [← h.1]
          exact ih l₀ c₀ heq
      · rename_i h₁ h₂
        split at h
        · cases h
        · rename_i fn heq
          split at h
          · cases h
          · rename_i l₀ c₀ hrec
            simp only [Except.ok.injEq, Prod.mk.injEq] at h
            rw [← h.1]
            intro q hq
            rcases List.mem_cons.mp hq with hq | hq
            · subst hq
              intro hcontra
              exact h₂ ⟨hcontra, rfl⟩
            · exact ih l₀ c₀ hrec q hq

theorem scanPages_publishAll_count (aD : Bool) (t : Int) :
    ∀ (pages : List RawPage) (l : List PageInfo) (c : Nat),
      scanPages aD t true pages = .ok (l, c) → c = 0 := by
  intro pages
  induction pages with
  | nil =>
    intro l c h
    simp only [scanPages, Except.ok.injEq, Prod.mk.injEq] at h
    exact h.2.symm
  | cons p rest ih =>
    intro l c h
    unfold scanPages at h
    split at h
    · exact ih l c h
    · split at h
      · rename_i h₂
        exact absurd h₂.2 (by decide)
      · split at h
        · cases h
        · rename_i fn heq
          split at h
          · cases h
          · rename_i l₀ c₀ hrec
            simp only [Except.ok.injEq, Prod.mk.injEq] at h
            rw [← h.2]
            exact ih l₀ c₀ hrec

theorem lexLt_of_lexLe_ne {a b : List Char} (hle : lexLe a b = true) (hne : a ≠ b) :
    lexLt a b = true := by
  induction a generalizing b with
  | nil =>
    cases b with
    | nil => exact absurd rfl hne
    | cons d ds => rfl
  | cons c cs ih =>
    cases b with
    | nil => simp [lexLe] at hle
    | cons d ds =>
      by_cases hcd : c = d
      · subst hcd
        simp only [lexLe, if_pos rfl] at hle
        have hne' : cs ≠ ds := fun hc => hne (by rw [hc])
        simp only [lexLt, if_pos rfl]
        exact ih hle hne'
      · simp only [lexLe, if_neg hcd] at hle
        simp only [lexLt, if_neg hcd]
        exact hle

theorem string_toList_inject {a b : String} (h : a.toList = b.toList) : a = b := by
  cases a
  cases b
  simp only [String.toList] at h
  rw [h]

theorem pyStrLt_of_pyStrLe_ne {a b : String} (hle : pyStrLe a b = true) (hne : a ≠ b) :
    pyStrLt a b = true :=
  lexLt_of_lexLe_ne hle (fun hc => hne (string_toList_inject hc))

/-- C1: for every successful scan with distinct page directory names, the
record list returned by `get_page_info_list` is sorted by the key
(parsed post date, page identifier); records with equal parsed post dates
appear in strictly increasing page-identifier order; and re-sorting the
returned list by the same key leaves it unchanged (sorting is idempotent and
deterministic). -/
theorem get_page_info_list_sorted (pages : List RawPage) (t : Int) (aD pub : Bool)
    (l : List PageInfo) (c : Nat)
    (hok : get_page_info_list pages t aD pub = .ok (l, c))
    (hnd : (pages.map RawPage.pageName).Nodup) :
    l.Sorted pageLE ∧
    l.insertionSort pageLE = l ∧
    l.Pairwise (fun a b =>
      a.postDate = b.postDate → pyStrLt a.pageName b.pageName = true) := by
  unfold get_page_info_list at hok
  rcases hscan : scanPages aD t pub pages with e | ⟨l₀, c₀⟩ <;> rw [hscan] at hok
  · cases hok
  · simp only [Except.ok.injEq, Prod.mk.injEq] at hok
    obtain ⟨hl, hc⟩ := hok
    have hsorted : (l₀.insertionSort pageLE).Sorted pageLE :=
      List.sorted_insertionSort pageLE l₀
    have hsub := scanPages_names_sublist aD t pub pages l₀ c₀ hscan
    have hnd₀ : (l₀.map PageInfo.pageName).Nodup := hnd.sublist hsub
    have hperm : List.Perm (l₀.insertionSort pageLE) l₀ :=
      List.perm_insertionSort pageLE l₀
    have hnds : ((l₀.insertionSort pageLE).map PageInfo.pageName).Nodup :=
      ((hperm.map PageInfo.pageName).nodup_iff).mpr hnd₀
    have hpnames : (l₀.insertionSort pageLE).Pairwise
        (fun a b => a.pageName ≠ b.pageName) := List.pairwise_map.mp hnds
    have hstrict : (l₀.insertionSort pageLE).Pairwise
        (fun a b => a.postDate = b.postDate → pyStrLt a.pageName b.pageName = true) := by
      refine (hsorted.and hpnames).imp ?_
      rintro a b ⟨hle, hne⟩ hdate
      rcases hle with hlt | ⟨_, hsle⟩
      · exact absurd hlt (by rw [hdate]; exact lt_irrefl _)
      · exact pyStrLt_of_pyStrLe_ne hsle hne
    refine ⟨hl ▸ hsorted, ?_, hl ▸ hstrict⟩
    rw [← hl]
    exact hsorted.insertionSort_eq

/-- C1 witness: two same-date pages scanned in reverse name order come out
sorted, strictly ordered by name, and idempotently re-sortable. -/
theorem get_page_info_list_sorted_witness :
    letI L : List PageInfo :=
      [{ pageName := "aaa", postDate := 5, filename := "a.png", storyline := "",
         characters := [], tags := [] },
       { pageName := "bbb", postDate := 5, filename := "b.png", storyline := "",
         characters := [], tags := [] }]
    L.Sorted pageLE ∧
    L.insertionSort pageLE = L ∧
    L.Pairwise (fun a b =>
      a.postDate = b.postDate → pyStrLt a.pageName b.pageName = true) :=
  get_page_info_list_sorted
    [{ pageName := "bbb", hasInfo := true, postDate := 5, filename := "b.png",
       dirFiles := [], storyline := "", characters := "", tags := "" },
     { pageName := "aaa", hasInfo := true, postDate := 5, filename := "a.png",
       dirFiles := [], storyline := "", characters := "", tags := "" }]
    10 false false _ 0 (by decide) (by decide)

/-- C3: for a scanned page with `info.ini` whose localized post date is
strictly after the localized build time: without the publish-all flag, the
page is excluded from the returned record list (every returned record's post
date is not in the future, so the future page cannot appear) and the
scheduled-post count is one more than for the same scan without that page;
with the publish-all flag, the scheduled count is zero and the page's record
is in the returned list. -/
theorem scheduled_post_gating (pre post : List RawPage) (p : RawPage) (t : Int)
    (aD : Bool) (hinfo : p.hasInfo = true) (hfut : t < p.postDate) :
    (∀ l c, get_page_info_list (pre ++ p :: post) t aD false = .ok (l, c) →
      (∀ q ∈ l, ¬ t < q.postDate) ∧
      ∃ c₀, get_page_info_list (pre ++ post) t aD false = .ok (l, c₀) ∧ c = c₀ + 1) ∧
    (∀ l c, get_page_info_list (pre ++ p :: post) t aD true = .ok (l, c) →
      c = 0 ∧ ∃ fn, resolveFilename aD p = .ok fn ∧ mkPageInfo p fn ∈ l) := by
  have hinfo' : ¬ p.hasInfo = false := by simp [hinfo]
  constructor
  · intro l c hok
    unfold get_page_info_list at hok
    rcases hscan : scanPages aD t false (pre ++ p :: post) with e | ⟨l₀, c₀⟩ <;>
      rw [hscan] at hok
    · cases hok
    · simp only [Except.ok.injEq, Prod.mk.injEq] at hok
      obtain ⟨hl, hc⟩ := hok
      have happ := scanPages_append aD t false pre (p :: post)
      rw [hscan] at happ
      rcases hpre : scanPages aD t false pre with e | ⟨l₁, c₁⟩ <;> rw [hpre] at happ
      · cases happ
      · rcases hpp : scanPages aD t false (p :: post) with e | ⟨l₂, c₂⟩ <;>
          rw [hpp] at happ
        · cases happ
        · simp only [Except.ok.injEq, Prod.mk.injEq] at happ
          obtain ⟨hl₀, hc₀⟩ := happ
          unfold scanPages at hpp
          rw [if_neg hinfo', if_pos ⟨hfut, rfl⟩] at hpp
          rcases hpost : scanPages aD t false post with e | ⟨l₃, c₃⟩ <;>
            rw [hpost] at hpp
          · cases hpp
          · simp only [Except.ok.injEq, Prod.mk.injEq] at hpp
            obtain ⟨hl₂, hc₂⟩ := hpp
            constructor
            · intro q hq
              rw [← hl] at hq
              exact scanPages_published_past aD t _ l₀ c₀ hscan q
                ((List.mem_insertionSort pageLE).mp hq)
            · refine ⟨c₁ + c₃, ?_, ?_⟩
              · unfold get_page_info_list
                rw [scanPages_append aD t false pre post, hpre, hpost]
                rw [← hl, hl₀, hl₂]
              · omega
  · intro l c hok
    unfold get_page_info_list at hok
    rcases hscan : scanPages aD t true (pre ++ p :: post) with e | ⟨l₀, c₀⟩ <;>
      rw [hscan] at hok
    · cases hok
    · simp only [Except.ok.injEq, Prod.mk.injEq] at hok
      obtain ⟨hl, hc⟩ := hok
      have hczero : c₀ = 0 := scanPages_publishAll_count aD t _ l₀ c₀ hscan
      have happ := scanPages_append aD t true pre (p :: post)
      rw [hscan] at happ
      rcases hpre : scanPages aD t true pre with e | ⟨l₁, c₁⟩ <;> rw [hpre] at happ
      · cases happ
      · rcases hpp : scanPages aD t true (p :: post) with e | ⟨l₂, c₂⟩ <;>
          rw [hpp] at happ
        · cases happ
        · simp only [Except.ok.injEq, Prod.mk.injEq] at happ
          obtain ⟨hl₀, hc₀⟩ := happ
          unfold scanPages at hpp
          rw [if_neg hinfo', if_neg (by simp)] at hpp
          rcases hres : resolveFilename aD p with e | fn <;> rw [hres] at hpp
          · cases hpp
          · rcases hpost : scanPages aD t true post with e | ⟨l₃, c₃⟩ <;>
              rw [hpost] at hpp
            · cases hpp
            · simp only [Except.ok.injEq, Prod.mk.injEq] at hpp
              obtain ⟨hl₂, hc₂⟩ := hpp
              refine ⟨by omega, fn, rfl, ?_⟩
              rw [← hl]
              apply (List.mem_insertionSort pageLE).mpr
              rw [hl₀, ← hl₂]
              exact List.mem_append_right l₁ (List.mem_cons_self _ _)

/-- C3 witness: a single future-dated page; without publish-all it is excluded
and counted, with publish-all it is published and the count stays zero. -/
theorem scheduled_post_gating_witness :
    letI p : RawPage :=
      { pageName := "future", hasInfo := true, postDate := 100,
        filename := "f.png", dirFiles := [], storyline := "", characters := "",
        tags := "" }
    (∀ l c, get_page_info_list ([] ++ p :: []) 0 false false = .ok (l, c) →
      (∀ q ∈ l, ¬ (0 : Int) < q.postDate) ∧
      ∃ c₀, get_page_info_list ([] ++ []) 0 false false = .ok (l, c₀) ∧ c = c₀ + 1) ∧
    (∀ l c, get_page_info_list ([] ++ p :: []) 0 false true = .ok (l, c) →
      c = 0 ∧ ∃ fn, resolveFilename false p = .ok fn ∧ mkPageInfo p fn ∈ l) :=
  scheduled_post_gating [] [] _ 0 false rfl (by decide)

/-! ### Whitespace and separator lemmas for the resize grammar -/

theorem dropWhile_append_all {p : Char → Bool} {u : List Char} (l : List Char)
    (hu : u.all p = true) : (u ++ l).dropWhile p = l.dropWhile p := by
  induction u with
  | nil => rfl
  | cons c cs ih =>
    simp only [List.all_cons, Bool.and_eq_true] at hu
    simp only [List.cons_append, List.dropWhile_cons, hu.1, ite_true]
    exact ih hu.2

theorem dropWhile_all_not {p : Char → Bool} {l : List Char}
    (hl : l.all (fun c => !p c) = true) : l.dropWhile p = l := by
  cases l with
  | nil => rfl
  | cons c cs =>
    simp only [List.all_cons, Bool.and_eq_true, Bool.not_eq_true'] at hl
    simp [List.dropWhile_cons, hl.1]

theorem dropWhile_all {p : Char → Bool} {l : List Char} (hl : l.all p = true) :
    l.dropWhile p = [] := by
  induction l with
  | nil => rfl
  | cons c cs ih =>
    simp only [List.all_cons, Bool.and_eq_true] at hl
    simp only [List.dropWhile_cons, hl.1, ite_true]
    exact ih hl.2

theorem all_reverse {p : Char → Bool} (l : List Char) :
    l.reverse.all p = l.all p := by
  simp [List.all_eq_true]

theorem stripChars_sandwich (p : Char → Bool) (u d v : List Char)
    (hu : u.all p = true) (hv : v.all p = true)
    (hd : d.all (fun c => !p c) = true) :
    stripChars p (u ++ (d ++ v)) = d := by
  unfold stripChars
  rw [dropWhile_append_all (d ++ v) hu]
  cases d with
  | nil =>
    rw [List.nil_append, dropWhile_all hv]
    rfl
  | cons c cs =>
    simp only [List.all_cons, Bool.and_eq_true, Bool.not_eq_true'] at hd
    rw [List.cons_append, List.dropWhile_cons_of_neg (by simp [hd.1])]
    rw [List.reverse_cons, List.reverse_append]
    rw [List.append_assoc, dropWhile_append_all _ (by rw [all_reverse]; exact hv)]
    rw [dropWhile_all_not ?hall]
    case hall =>
      rw [List.all_append, all_reverse]
      simp only [Bool.and_eq_true, List.all_cons, List.all_nil, Bool.and_true]
      exact ⟨hd.2, by simp [hd.1]⟩
    rw [List.reverse_append, List.reverse_reverse]
    rfl

theorem stripChars_self (p : Char → Bool) (d : List Char)
    (hd : d.all (fun c => !p c) = true) : stripChars p d = d := by
  have h := stripChars_sandwich p [] d [] rfl rfl hd
  simpa using h

theorem stripChars_sandwich₂ (p : Char → Bool) (u v mid : List Char) (c e : Char)
    (hu : u.all p = true) (hv : v.all p = true) (hc : p c = false) (he : p e = false) :
    stripChars p (u ++ (c :: (mid ++ (e :: v)))) = c :: (mid ++ [e]) := by
  unfold stripChars
  rw [dropWhile_append_all _ hu]
  rw [List.dropWhile_cons_of_neg (by simp [hc])]
  rw [List.reverse_cons, List.reverse_append, List.reverse_cons]
  rw [List.append_assoc, List.append_assoc]
  rw [dropWhile_append_all _ (by rw [all_reverse]; exact hv)]
  rw [List.singleton_append, List.dropWhile_cons_of_neg (by simp [he])]
  rw [List.reverse_cons, List.reverse_append, List.reverse_reverse]
  simp

theorem splitOnSep_ne_nil (p : Char → Bool) (l : List Char) :
    splitOnSep p l ≠ [] := by
  cases l with
  | nil => simp [splitOnSep]
  | cons c rest =>
    unfold splitOnSep
    rcases splitOnSep p rest with _ | ⟨h, t⟩
    · simp
    · by_cases hc : p c <;> simp [hc]

theorem splitOnSep_no (p : Char → Bool) (l : List Char)
    (h : l.all (fun c => !p c) = true) : splitOnSep p l = [l] := by
  induction l with
  | nil => rfl
  | cons c cs ih =>
    simp only [List.all_cons, Bool.and_eq_true, Bool.not_eq_true'] at h
    unfold splitOnSep
    rw [ih h.2]
    simp [h.1]

theorem splitOnSep_sep (p : Char → Bool) (a b : List Char) (s : Char)
    (ha : a.all (fun c => !p c) = true) (hs : p s = true) :
    splitOnSep p (a ++ s :: b) = a :: splitOnSep p b := by
  induction a with
  | nil =>
    rw [List.nil_append]
    rcases hsp : splitOnSep p b with _ | ⟨h, t⟩
    · exact absurd hsp (splitOnSep_ne_nil p b)
    · conv_lhs => unfold splitOnSep
      rw [hsp]
      simp [hs]
  | cons x xs ih =>
    simp only [List.all_cons, Bool.and_eq_true, Bool.not_eq_true'] at ha
    rw [List.cons_append]
    conv_lhs => unfold splitOnSep
    rw [ih ha.2]
    simp [ha.1]

theorem contains_eq_decide_mem (l : List Char) (c : Char) :
    l.contains c = decide (c ∈ l) := by
  induction l with
  | nil => rfl
  | cons x xs ih => simp [List.contains_cons, ih, List.mem_cons, eq_comm]

theorem contains_eq_false_of_all {q : Char → Bool} {l : List Char} {c : Char}
    (hl : l.all q = true) (hc : q c = false) : l.contains c = false := by
  rw [contains_eq_decide_mem]
  simp only [decide_eq_false_iff_not]
  intro hmem
  rw [List.all_eq_true] at hl
  rw [hl c hmem] at hc
  cases hc

theorem isDigit_not_ws {c : Char} (h : c.isDigit = true) :
    c.isWhitespace = false := by
  rcases hw : c.isWhitespace with _ | _
  · rfl
  · exfalso
    have hw' : ((c = ' ' ∨ c = '\t') ∨ c = '\x0d') ∨ c = '\n' := by
      simpa [Char.isWhitespace] using hw
    rcases hw' with ((rfl | rfl) | rfl) | rfl <;> exact absurd h (by decide)

theorem contains_append (l₁ l₂ : List Char) (c : Char) :
    (l₁ ++ l₂).contains c = (l₁.contains c || l₂.contains c) := by
  simp [contains_eq_decide_mem, List.mem_append]

theorem all_not_ws_of_digits {d : List Char} (hd : d.all Char.isDigit = true) :
    d.all (fun c => !c.isWhitespace) = true := by
  rw [List.all_eq_true] at hd ⊢
  intro c hc
  simp [isDigit_not_ws (hd c hc)]

theorem all_not_char_of_digits {d : List Char} (hd : d.all Char.isDigit = true)
    {c : Char} (hc : c.isDigit = false) : d.all (fun x => !(x = c)) = true := by
  rw [List.all_eq_true] at hd ⊢
  intro x hx
  simp only [Bool.not_eq_true', decide_eq_false_iff_not]
  intro hxc
  have hx' := hd x hx
  rw [hxc, hc] at hx'
  cases hx'

theorem all_not_char_of_ws {v : List Char} (hv : v.all Char.isWhitespace = true)
    {c : Char} (hc : c.isWhitespace = false) : v.all (fun x => !(x = c)) = true := by
  rw [List.all_eq_true] at hv ⊢
  intro x hx
  simp only [Bool.not_eq_true', decide_eq_false_iff_not]
  intro hxc
  have hx' := hv x hx
  rw [hxc, hc] at hx'
  cases hx'

/-- Branch-selection congruence for `resize`: two specifications with the same
comma test and the same final character, at least one applicable form, and
equal branch evaluations where relevant, resize identically. -/
theorem resize_congr (im_w im_h : Nat) (s₁ s₂ : List Char)
    (hcon : s₁.contains ',' = s₂.contains ',')
    (hlast : s₁.contains ',' = false → s₁.getLast? = s₂.getLast?)
    (hform : s₁.contains ',' = true ∨ s₁.getLast? = some '%' ∨
      s₁.getLast? = some 'h' ∨ s₁.getLast? = some 'w')
    (hcomma : s₁.contains ',' = true → resizeComma s₁ = resizeComma s₂)
    (hpct : s₁.contains ',' = false → s₁.getLast? = some '%' →
      resizePercent im_w im_h s₁ = resizePercent im_w im_h s₂)
    (hH : s₁.contains ',' = false → s₁.getLast? = some 'h' →
      resizeH im_w im_h s₁ = resizeH im_w im_h s₂)
    (hW : s₁.contains ',' = false → s₁.getLast? = some 'w' →
      resizeW im_w im_h s₁ = resizeW im_w im_h s₂) :
    resize im_w im_h s₁ = resize im_w im_h s₂ := by
  have hb : ∀ (s : List Char) (c : Char), lastIs s c = true ↔ s.getLast? = some c := by
    intro s c
    simp [lastIs]
  unfold resize
  by_cases h₁ : s₁.contains ',' = true
  · have h₁₂ : s₂.contains ',' = true := by rw [← hcon]; exact h₁
    rw [if_pos h₁, if_pos h₁₂]
    exact hcomma h₁
  · have h₁' : s₁.contains ',' = false := by
      revert h₁
      rcases s₁.contains ',' <;> simp
    have h₁₂ : ¬ s₂.contains ',' = true := by rw [← hcon]; exact h₁
    rw [if_neg h₁, if_neg h₁₂]
    have hlast' := hlast h₁'
    by_cases h₂ : lastIs s₁ '%' = true
    · have h₂' : lastIs s₂ '%' = true := by
        rw [hb] at h₂ ⊢
        rw [← hlast']
        exact h₂
      rw [if_pos h₂, if_pos h₂']
      exact hpct h₁' ((hb _ _).mp h₂)
    · have h₂'' : ¬ lastIs s₂ '%' = true := by
        rw [hb] at h₂ ⊢
        rw [← hlast']
        exact h₂
      rw [if_neg h₂, if_neg h₂'']
      by_cases h₃ : lastIs s₁ 'h' = true
      · have h₃' : lastIs s₂ 'h' = true := by
          rw [hb] at h₃ ⊢
          rw [← hlast']
          exact h₃
        rw [if_pos h₃, if_pos h₃']
        exact hH h₁' ((hb _ _).mp h₃)
      · have h₃'' : ¬ lastIs s₂ 'h' = true := by
          rw [hb] at h₃ ⊢
          rw [← hlast']
          exact h₃
        rw [if_neg h₃, if_neg h₃'']
        by_cases h₄ : lastIs s₁ 'w' = true
        · have h₄' : lastIs s₂ 'w' = true := by
            rw [hb] at h₄ ⊢
            rw [← hlast']
            exact h₄
          rw [if_pos h₄, if_pos h₄']
          exact hW h₁' ((hb _ _).mp h₄)
        · exfalso
          rcases hform with hf | hf | hf | hf
          · exact h₁ hf
          · exact h₂ ((hb _ _).mpr hf)
          · exact h₃ ((hb _ _).mpr hf)
          · exact h₄ ((hb _ _).mpr hf)

theorem resizeH_ws (im_w im_h : Nat) (u v d : List Char) (m : Char)
    (hu : u.all Char.isWhitespace = true) (hv : v.all Char.isWhitespace = true)
    (hd : d.all Char.isDigit = true) :
    resizeH im_w im_h (u ++ d ++ v ++ [m]) = resizeH im_w im_h (d ++ [m]) := by
  have hdnw := all_not_ws_of_digits hd
  have hstrip1 : pyStrip ((u ++ d) ++ v) = d := by
    rw [List.append_assoc]
    exact stripChars_sandwich _ u d v hu hv hdnw
  have hstripd : pyStrip d = d := stripChars_self _ d hdnw
  unfold resizeH parsePyInt
  rw [List.dropLast_concat, List.dropLast_concat]
  simp only [hstrip1, hstripd]

theorem resizeW_ws (im_w im_h : Nat) (u v d : List Char) (m : Char)
    (hu : u.all Char.isWhitespace = true) (hv : v.all Char.isWhitespace = true)
    (hd : d.all Char.isDigit = true) :
    resizeW im_w im_h (u ++ d ++ v ++ [m]) = resizeW im_w im_h (d ++ [m]) := by
  have hdnw := all_not_ws_of_digits hd
  have hstrip1 : pyStrip ((u ++ d) ++ v) = d := by
    rw [List.append_assoc]
    exact stripChars_sandwich _ u d v hu hv hdnw
  have hstripd : pyStrip d = d := stripChars_self _ d hdnw
  unfold resizeW parsePyInt
  rw [List.dropLast_concat, List.dropLast_concat]
  simp only [hstrip1, hstripd]

theorem resizePercent_ws (im_w im_h : Nat) (u v d : List Char)
    (hu : u.all Char.isWhitespace = true) (hv : v.all Char.isWhitespace = true)
    (hdne : d ≠ []) (hd : d.all Char.isDigit = true) :
    resizePercent im_w im_h (u ++ d ++ v ++ ['%']) =
      resizePercent im_w im_h (d ++ ['%']) := by
  obtain ⟨c, dt, rfl⟩ : ∃ c dt, d = c :: dt := by
    cases d with
    | nil => exact absurd rfl hdne
    | cons c dt => exact ⟨c, dt, rfl⟩
  have hcd : c.isDigit = true ∧ dt.all Char.isDigit = true := by simpa using hd
  have hcnw : c.isWhitespace = false := isDigit_not_ws hcd.1
  have hdnw := all_not_ws_of_digits hd
  have h1 : ((u ++ (c :: dt)) ++ v) ++ ['%'] =
      u ++ (c :: ((dt ++ v) ++ ('%' :: []))) := by simp
  have hstrip1 : pyStrip (((u ++ (c :: dt)) ++ v) ++ ['%']) =
      c :: ((dt ++ v) ++ ['%']) := by
    rw [h1]
    exact stripChars_sandwich₂ _ u [] (dt ++ v) c '%' hu rfl hcnw (by decide)
  have hall2 : (c :: (dt ++ v)).all (fun x => !(x = '%')) = true := by
    simp only [List.all_cons, List.all_append, Bool.and_eq_true]
    refine ⟨?_, ?_, ?_⟩
    · simp only [Bool.not_eq_true', decide_eq_false_iff_not]
      intro hc
      have := hcd.1
      rw [hc] at this
      cases this
    · exact List.all_eq_true.mpr fun x hx =>
        List.all_eq_true.mp (all_not_char_of_digits hcd.2 (by decide)) x hx
    · exact List.all_eq_true.mpr fun x hx =>
        List.all_eq_true.mp (all_not_char_of_ws hv (by decide)) x hx
  have h2 : c :: ((dt ++ v) ++ ['%']) = [] ++ ((c :: (dt ++ v)) ++ ('%' :: [])) := by
    simp
  have hstrip2 : stripChars (fun x => x = '%') (c :: ((dt ++ v) ++ ['%'])) =
      c :: (dt ++ v) := by
    rw [h2]
    exact stripChars_sandwich (fun x => x = '%') [] (c :: (dt ++ v)) ['%'] rfl
      (by decide) hall2
  have h3 : c :: (dt ++ v) = [] ++ ((c :: dt) ++ v) := by simp
  have hstrip3 : pyStrip (c :: (dt ++ v)) = c :: dt := by
    rw [h3]
    exact stripChars_sandwich _ [] (c :: dt) v rfl hv hdnw
  have hstripd : pyStrip (c :: dt) = c :: dt := stripChars_self _ _ hdnw
  have hall4 : ((c :: dt) ++ ['%']).all (fun x => !x.isWhitespace) = true := by
    rw [List.all_append]
    simp only [Bool.and_eq_true]
    exact ⟨hdnw, by decide⟩
  have hstrip4 : pyStrip ((c :: dt) ++ ['%']) = (c :: dt) ++ ['%'] :=
    stripChars_self _ _ hall4
  have hall5 : (c :: dt).all (fun x => !(x = '%')) = true :=
    all_not_char_of_digits hd (by decide)
  have h5 : (c :: dt) ++ ['%'] = [] ++ ((c :: dt) ++ ('%' :: [])) := by simp
  have hstrip5 : stripChars (fun x => x = '%') ((c :: dt) ++ ['%']) = c :: dt := by
    rw [h5]
    exact stripChars_sandwich (fun x => x = '%') [] (c :: dt) ['%'] rfl (by decide)
      hall5
  unfold resizePercent parsePyFloat
  rw [hstrip1, hstrip2, hstrip3, hstrip4, hstrip5, hstripd]

theorem resizeComma_ws (u₁ u₂ u₃ u₄ d₁ d₂ : List Char)
    (hu₁ : u₁.all Char.isWhitespace = true) (hu₂ : u₂.all Char.isWhitespace = true)
    (hu₃ : u₃.all Char.isWhitespace = true) (hu₄ : u₄.all Char.isWhitespace = true)
    (h₁ne : d₁ ≠ []) (h₁d : d₁.all Char.isDigit = true)
    (h₂ne : d₂ ≠ []) (h₂d : d₂.all Char.isDigit = true) :
    resizeComma (u₁ ++ d₁ ++ u₂ ++ [','] ++ u₃ ++ d₂ ++ u₄) =
      resizeComma (d₁ ++ [','] ++ d₂) := by
  obtain ⟨c, dt₁, rfl⟩ : ∃ c dt, d₁ = c :: dt := by
    cases d₁ with
    | nil => exact absurd rfl h₁ne
    | cons c dt => exact ⟨c, dt, rfl⟩
  obtain ⟨dt₂, e, rfl⟩ : ∃ dt e, d₂ = dt ++ [e] := by
    rcases List.eq_nil_or_concat d₂ with h | ⟨L, b, h⟩
    · exact absurd h h₂ne
    · exact ⟨L, b, by simpa [List.concat_eq_append] using h⟩
  have hcd : c.isDigit = true := by
    have := h₁d
    rw [List.all_cons, Bool.and_eq_true] at this
    exact this.1
  have hed : e.isDigit = true := by
    have := h₂d
    rw [List.all_append, Bool.and_eq_true] at this
    simpa using this.2
  have hcnw := isDigit_not_ws hcd
  have henw := isDigit_not_ws hed
  have h1 : u₁ ++ (c :: dt₁) ++ u₂ ++ [','] ++ u₃ ++ (dt₂ ++ [e]) ++ u₄ =
      u₁ ++ (c :: ((dt₁ ++ u₂ ++ [','] ++ u₃ ++ dt₂) ++ (e :: u₄))) := by simp
  have hstrip1 : pyStrip (u₁ ++ (c :: dt₁) ++ u₂ ++ [','] ++ u₃ ++ (dt₂ ++ [e]) ++ u₄) =
      c :: ((dt₁ ++ u₂ ++ [','] ++ u₃ ++ dt₂) ++ [e]) := by
    rw [h1]
    exact stripChars_sandwich₂ _ u₁ u₄ _ c e hu₁ hu₄ hcnw henw
  have hsplitarg : c :: ((dt₁ ++ u₂ ++ [','] ++ u₃ ++ dt₂) ++ [e]) =
      ((c :: dt₁) ++ u₂) ++ (',' :: (u₃ ++ (dt₂ ++ [e]))) := by simp
  have hAnc : ((c :: dt₁) ++ u₂).all (fun x => !(x = ',')) = true := by
    rw [List.all_append]
    simp only [Bool.and_eq_true]
    exact ⟨all_not_char_of_digits h₁d (by decide), all_not_char_of_ws hu₂ (by decide)⟩
  have hBnc : (u₃ ++ (dt₂ ++ [e])).all (fun x => !(x = ',')) = true := by
    rw [List.all_append]
    simp only [Bool.and_eq_true]
    exact ⟨all_not_char_of_ws hu₃ (by decide), all_not_char_of_digits h₂d (by decide)⟩
  have hsplit : splitComma (c :: ((dt₁ ++ u₂ ++ [','] ++ u₃ ++ dt₂) ++ [e])) =
      [(c :: dt₁) ++ u₂, u₃ ++ (dt₂ ++ [e])] := by
    unfold splitComma
    rw [hsplitarg, splitOnSep_sep _ _ _ ',' hAnc (by decide),
      splitOnSep_no _ _ hBnc]
  have hA : pyStrip ((c :: dt₁) ++ u₂) = c :: dt₁ := by
    have := stripChars_sandwich Char.isWhitespace [] (c :: dt₁) u₂ rfl hu₂
      (all_not_ws_of_digits h₁d)
    simpa using this
  have hB : pyStrip (u₃ ++ (dt₂ ++ [e])) = dt₂ ++ [e] := by
    have := stripChars_sandwich Char.isWhitespace u₃ (dt₂ ++ [e]) [] hu₃ rfl
      (all_not_ws_of_digits h₂d)
    simpa using this
  have hAs : pyStrip (c :: dt₁) = c :: dt₁ :=
    stripChars_self _ _ (all_not_ws_of_digits h₁d)
  have hBs : pyStrip (dt₂ ++ [e]) = dt₂ ++ [e] :=
    stripChars_self _ _ (all_not_ws_of_digits h₂d)
  have hallR : ((c :: dt₁) ++ [','] ++ (dt₂ ++ [e])).all
      (fun x => !x.isWhitespace) = true := by
    rw [List.all_append, List.all_append]
    simp only [Bool.and_eq_true]
    exact ⟨⟨all_not_ws_of_digits h₁d, by decide⟩, all_not_ws_of_digits h₂d⟩
  have hRstrip : pyStrip ((c :: dt₁) ++ [','] ++ (dt₂ ++ [e])) =
      (c :: dt₁) ++ [','] ++ (dt₂ ++ [e]) := stripChars_self _ _ hallR
  have hRsplitarg : (c :: dt₁) ++ [','] ++ (dt₂ ++ [e]) =
      (c :: dt₁) ++ (',' :: (dt₂ ++ [e])) := by simp
  have hRsplit : splitComma ((c :: dt₁) ++ [','] ++ (dt₂ ++ [e])) =
      [c :: dt₁, dt₂ ++ [e]] := by
    unfold splitComma
    rw [hRsplitarg, splitOnSep_sep _ _ _ ','
      (all_not_char_of_digits h₁d (by decide)) (by decide),
      splitOnSep_no _ _ (all_not_char_of_digits h₂d (by decide))]
  unfold resizeComma parsePyInt
  rw [hstrip1, hsplit, hRstrip, hRsplit]
  dsimp only
  rw [hA, hB]
  simp only [hAs, hBs]

/-- C7 counterexample: the claimed case-tolerance of the trailing marker is
false — `"40H"` hits the unknown-resize-specification error while `"40h"`
succeeds; whitespace after the marker (`"40h "`) is also rejected. -/
theorem resize_marker_case_counterexample :
    resizeStr 200 100 "40H" = .error (.unknown "40H".toList) ∧
    resizeStr 200 100 "40h " = .error (.unknown "40h ".toList) ∧
    resizeStr 200 100 "40h" = .ok (80, 40) := by
  refine ⟨by decide, by decide, by decide⟩

/-- C7 amended: `resize` is whitespace-tolerant around the comma of a
`width, height` pair and between the number and a trailing `%`/`h`/`w`
marker — every such variant denotes the same target size as the canonical
form — but the marker itself is case-sensitive (`H`/`W` raise the
unknown-resize-specification error) and must be the string's final character
(whitespace after the marker raises the same error). -/
theorem resize_whitespace_tolerance :
    (∀ (im_w im_h : Nat) (u₁ u₂ u₃ u₄ d₁ d₂ : List Char),
      u₁.all Char.isWhitespace = true → u₂.all Char.isWhitespace = true →
      u₃.all Char.isWhitespace = true → u₄.all Char.isWhitespace = true →
      d₁ ≠ [] → d₁.all Char.isDigit = true → d₂ ≠ [] → d₂.all Char.isDigit = true →
      resize im_w im_h (u₁ ++ d₁ ++ u₂ ++ [','] ++ u₃ ++ d₂ ++ u₄) =
        resize im_w im_h (d₁ ++ [','] ++ d₂)) ∧
    (∀ (im_w im_h : Nat) (u v d : List Char),
      u.all Char.isWhitespace = true → v.all Char.isWhitespace = true →
      d ≠ [] → d.all Char.isDigit = true →
      resize im_w im_h (u ++ d ++ v ++ ['%']) = resize im_w im_h (d ++ ['%'])) ∧
    (∀ (im_w im_h : Nat) (u v d : List Char) (m : Char),
      (m = 'h' ∨ m = 'w') →
      u.all Char.isWhitespace = true → v.all Char.isWhitespace = true →
      d ≠ [] → d.all Char.isDigit = true →
      resize im_w im_h (u ++ d ++ v ++ [m]) = resize im_w im_h (d ++ [m])) ∧
    (∀ (im_w im_h : Nat) (d v : List Char) (m : Char),
      (m = '%' ∨ m = 'h' ∨ m = 'w') → d.all Char.isDigit = true →
      v ≠ [] → v.all Char.isWhitespace = true →
      resize im_w im_h (d ++ [m] ++ v) = .error (.unknown (d ++ [m] ++ v))) ∧
    (∀ (im_w im_h : Nat) (d : List Char) (m : Char),
      d.all Char.isDigit = true → (m = 'H' ∨ m = 'W') →
      resize im_w im_h (d ++ [m]) = .error (.unknown (d ++ [m]))) := by
  refine ⟨?_, ?_, ?_, ?_, ?_⟩
  · -- comma form
    intro im_w im_h u₁ u₂ u₃ u₄ d₁ d₂ hu₁ hu₂ hu₃ hu₄ h₁ne h₁d h₂ne h₂d
    have hc₁ : (u₁ ++ d₁ ++ u₂ ++ [','] ++ u₃ ++ d₂ ++ u₄).contains ',' = true := by
      rw [contains_eq_decide_mem]
      simp [List.mem_append]
    refine resize_congr im_w im_h _ _ ?_ ?_ (Or.inl hc₁) ?_ ?_ ?_ ?_
    · rw [hc₁, contains_eq_decide_mem]
      simp [List.mem_append]
    · intro hfalse
      rw [hc₁] at hfalse
      cases hfalse
    · intro _
      exact resizeComma_ws u₁ u₂ u₃ u₄ d₁ d₂ hu₁ hu₂ hu₃ hu₄ h₁ne h₁d h₂ne h₂d
    · intro hfalse _
      rw [hc₁] at hfalse
      cases hfalse
    · intro hfalse _
      rw [hc₁] at hfalse
      cases hfalse
    · intro hfalse _
      rw [hc₁] at hfalse
      cases hfalse
  · -- percent form
    intro im_w im_h u v d hu hv hdne hd
    have hc₁ : (u ++ d ++ v ++ ['%']).contains ',' = false := by
      rw [contains_append, contains_append, contains_append,
        contains_eq_false_of_all hu (by decide),
        contains_eq_false_of_all hd (by decide),
        contains_eq_false_of_all hv (by decide)]
      decide
    have hc₂ : (d ++ ['%']).contains ',' = false := by
      rw [contains_append, contains_eq_false_of_all hd (by decide)]
      decide
    refine resize_congr im_w im_h _ _ (hc₁.trans hc₂.symm)
      (fun _ => (List.getLast?_concat _).trans (List.getLast?_concat _).symm)
      (Or.inr (Or.inl (List.getLast?_concat _))) ?_ ?_ ?_ ?_
    · intro htrue
      rw [hc₁] at htrue
      cases htrue
    · intro _ _
      exact resizePercent_ws im_w im_h u v d hu hv hdne hd
    · intro _ hlast'
      rw [List.getLast?_concat] at hlast'
      exact absurd hlast' (by decide)
    · intro _ hlast'
      rw [List.getLast?_concat] at hlast'
      exact absurd hlast' (by decide)
  · -- h / w forms
    intro im_w im_h u v d m hm hu hv hdne hd
    have hmc : ([m].contains ',') = false := by
      rcases hm with rfl | rfl <;> decide
    have hc₁ : (u ++ d ++ v ++ [m]).contains ',' = false := by
      rw [contains_append, contains_append, contains_append,
        contains_eq_false_of_all hu (by decide),
        contains_eq_false_of_all hd (by decide),
        contains_eq_false_of_all hv (by decide), hmc]
      decide
    have hc₂ : (d ++ [m]).contains ',' = false := by
      rw [contains_append, contains_eq_false_of_all hd (by decide), hmc]
      decide
    refine resize_congr im_w im_h _ _ (hc₁.trans hc₂.symm)
      (fun _ => (List.getLast?_concat _).trans (List.getLast?_concat _).symm)
      ?_ ?_ ?_ ?_ ?_
    · rcases hm with rfl | rfl
      · exact Or.inr (Or.inr (Or.inl (List.getLast?_concat _)))
      · exact Or.inr (Or.inr (Or.inr (List.getLast?_concat _)))
    · intro htrue
      rw [hc₁] at htrue
      cases htrue
    · intro _ hlast'
      rw [List.getLast?_concat] at hlast'
      rcases hm with rfl | rfl <;> exact absurd hlast' (by decide)
    · intro _ _
      exact resizeH_ws im_w im_h u v d m hu hv hd
    · intro _ _
      exact resizeW_ws im_w im_h u v d m hu hv hd
  · -- trailing whitespace after the marker is rejected
    intro im_w im_h d v m hm hd hvne hv
    have hmc : ([m].contains ',') = false := by
      rcases hm with rfl | rfl | rfl <;> decide
    have hc : (d ++ [m] ++ v).contains ',' = false := by
      rw [contains_append, contains_append,
        contains_eq_false_of_all hd (by decide), hmc,
        contains_eq_false_of_all hv (by decide)]
      decide
    obtain ⟨v', lc, rfl⟩ : ∃ v' lc, v = v' ++ [lc] := by
      rcases List.eq_nil_or_concat v with h | ⟨L, b, h⟩
      · exact absurd h hvne
      · exact ⟨L, b, by simpa [List.concat_eq_append] using h⟩
    have hlcw : lc.isWhitespace = true := by
      rw [List.all_eq_true] at hv
      exact hv lc (by simp)
    have hlast : (d ++ [m] ++ (v' ++ [lc])).getLast? = some lc := by
      rw [← List.append_assoc, List.getLast?_concat]
    have hne : ∀ c : Char, c.isWhitespace = false → ¬ lc = c := by
      intro c hcws hcontra
      rw [hcontra, hcws] at hlcw
      cases hlcw
    unfold resize
    rw [hc]
    have mkh : ∀ c : Char, c.isWhitespace = false →
        lastIs (d ++ [m] ++ (v' ++ [lc])) c = false := by
      intro c hcws
      unfold lastIs
      rw [hlast]
      simp only [decide_eq_false_iff_not]
      intro hcontra
      exact hne c hcws (Option.some.inj hcontra)
    rw [mkh '%' (by decide), mkh 'h' (by decide), mkh 'w' (by decide)]
    simp
  · -- uppercase markers are rejected
    intro im_w im_h d m hd hm
    have hmc : ([m].contains ',') = false := by
      rcases hm with rfl | rfl <;> decide
    have hc : (d ++ [m]).contains ',' = false := by
      rw [contains_append, contains_eq_false_of_all hd (by decide), hmc]
      decide
    have hlast : (d ++ [m]).getLast? = some m := List.getLast?_concat _
    unfold resize
    rw [hc]
    have hp : lastIs (d ++ [m]) '%' = false := by
      rcases hm with rfl | rfl <;> simp [lastIs, hlast]
    have hh : lastIs (d ++ [m]) 'h' = false := by
      rcases hm with rfl | rfl <;> simp [lastIs, hlast]
    have hw : lastIs (d ++ [m]) 'w' = false := by
      rcases hm with rfl | rfl <;> simp [lastIs, hlast]
    rw [hp, hh, hw]
    simp

/-- C7 witness: the tolerance and rejection conjuncts instantiated at a
200×100 source: `" 40 h"` equals `"40h"`, `" 100 , 36 "` equals `"100,36"`,
`"50 %"` equals `"50%"`, and `"40h "` and `"40H"` are rejected. -/
theorem resize_whitespace_tolerance_witness :
    resizeStr 200 100 " 40 h" = resizeStr 200 100 "40h" ∧
    resizeStr 200 100 " 100 , 36 " = resizeStr 200 100 "100,36" ∧
    resizeStr 200 100 "50 %" = resizeStr 200 100 "50%" ∧
    resizeStr 200 100 "40h " = .error (.unknown "40h ".toList) ∧
    resizeStr 200 100 "40H" = .error (.unknown "40H".toList) := by
  refine ⟨?_, ?_, ?_, ?_, ?_⟩
  · exact resize_whitespace_tolerance.2.2.1 200 100 [' '] [' '] ['4', '0'] 'h'
      (Or.inl rfl) (by decide) (by decide) (by decide) (by decide)
  · exact resize_whitespace_tolerance.1 200 100 [' '] [' '] [' '] [' ']
      ['1', '0', '0'] ['3', '6'] (by decide) (by decide) (by decide) (by decide)
      (by decide) (by decide) (by decide) (by decide)
  · exact resize_whitespace_tolerance.2.1 200 100 [] [' '] ['5', '0']
      (by decide) (by decide) (by decide) (by decide)
  · exact resize_whitespace_tolerance.2.2.2.1 200 100 ['4', '0'] [' '] 'h'
      (Or.inr (Or.inl rfl)) (by decide) (by decide) (by decide)
  · exact resize_whitespace_tolerance.2.2.2.2 200 100 ['4', '0'] 'H'
      (by decide) (Or.inl rfl)

/-! ### Configuration-merge lemmas -/

theorem getSection_eq_lookupKey (c : Config) (s : String) :
    getSection c s = lookupKey c s := rfl

theorem getSection_removeSection_self (c : Config) (n : String) :
    getSection (removeSection c n) n = none := by
  rw [getSection_eq_lookupKey]
  unfold removeSection
  exact lookupKey_filter_self c n

theorem getSection_removeSection_ne (c : Config) (n s : String) (h : s ≠ n) :
    getSection (removeSection c n) s = getSection c s := by
  rw [getSection_eq_lookupKey, getSection_eq_lookupKey]
  unfold removeSection
  exact lookupKey_filter_ne c n s h

theorem optLookup_cons (a v' : String) (t : CfgOptions) (k : String) :
    optLookup ((a, v') :: t) k = if a = k then some v' else optLookup t k := by
  rcases h : decide (a = k) with _ | _
  · simp at h
    simp [optLookup, List.find?_cons, h]
  · simp at h
    simp [optLookup, List.find?_cons, h]

theorem optLookup_none_of_not_any (o : CfgOptions) (k : String)
    (h : o.any (fun p => p.1 = k) = false) : optLookup o k = none := by
  induction o with
  | nil => rfl
  | cons p t ih =>
    obtain ⟨k₀, v₀⟩ := p
    simp only [List.any_cons, Bool.or_eq_false_iff] at h
    rw [optLookup_cons, if_neg (by simpa using h.1)]
    exact ih h.2

theorem optLookup_map_set_ne (t : CfgOptions) (k v k' : String) (h : k' ≠ k) :
    optLookup (t.map (fun p => if p.1 = k then (k, v) else p)) k' = optLookup t k' := by
  induction t with
  | nil => rfl
  | cons p t ih =>
    obtain ⟨k₀, v₀⟩ := p
    by_cases h₀ : k₀ = k
    · subst h₀
      simp only [List.map_cons, if_pos rfl]
      rw [optLookup_cons, optLookup_cons, if_neg (fun hc => h hc.symm),
        if_neg (fun hc => h hc.symm)]
      exact ih
    · simp only [List.map_cons, if_neg h₀]
      rw [optLookup_cons, optLookup_cons]
      by_cases h' : k₀ = k' <;> simp [h', ih]

theorem optLookup_map_set_self (t : CfgOptions) (k v : String)
    (hany : t.any (fun p => p.1 = k) = true) :
    optLookup (t.map (fun p => if p.1 = k then (k, v) else p)) k = some v := by
  induction t with
  | nil => cases hany
  | cons p t ih =>
    obtain ⟨k₀, v₀⟩ := p
    by_cases h₀ : k₀ = k
    · subst h₀
      rw [List.map_cons,
        show (if ((k₀, v₀) : String × String).1 = k₀ then (k₀, v) else (k₀, v₀)) =
          (k₀, v) from by simp,
        optLookup_cons, if_pos rfl]
    · simp only [List.any_cons, Bool.or_eq_true] at hany
      rcases hany with hc | hany
      · exact absurd (by simpa using hc) h₀
      · rw [List.map_cons,
          show (if ((k₀, v₀) : String × String).1 = k then (k, v) else (k₀, v₀)) =
            (k₀, v₀) from by simp [h₀],
          optLookup_cons, if_neg h₀]
        exact ih hany

theorem optLookup_setOption (o : CfgOptions) (k v k' : String) :
    optLookup (setOption o k v) k' = if k' = k then some v else optLookup o k' := by
  unfold setOption
  by_cases hany : o.any (fun p => p.1 = k) = true
  · rw [if_pos hany]
    by_cases h' : k' = k
    · subst h'
      rw [if_pos rfl]
      exact optLookup_map_set_self o k' v hany
    · rw [if_neg h', optLookup_map_set_ne o k v k' h']
  · rw [if_neg hany]
    unfold optLookup
    rw [List.find?_append]
    by_cases h' : k' = k
    · subst h'
      have hfind : o.find? (fun p => decide (p.1 = k')) = none := by
        rw [List.find?_eq_none]
        intro x hx hpx
        have : o.any (fun p => p.1 = k') = true := List.any_eq_true.mpr ⟨x, hx, hpx⟩
        rw [this] at hany
        exact hany rfl
      rw [hfind, if_pos rfl]
      simp [List.find?_cons]
    · have hkk : ¬ k = k' := fun hc => h' hc.symm
      rcases hfo : o.find? (fun p => decide (p.1 = k')) with _ | p <;>
        · rw [if_neg h']
          simp [List.find?_cons, hkk, hfo]

theorem optLookup_foldl_set (opts : CfgOptions) :
    ∀ (base : CfgOptions), (opts.map Prod.fst).Nodup → ∀ k,
      optLookup (opts.foldl (fun acc p => setOption acc p.1 p.2) base) k =
        (optLookup opts k).or (optLookup base k) := by
  induction opts with
  | nil =>
    intro base _ k
    simp [optLookup]
  | cons p rest ih =>
    intro base hnd k
    obtain ⟨k₀, v₀⟩ := p
    simp only [List.map_cons, List.nodup_cons] at hnd
    rw [List.foldl_cons, ih (setOption base k₀ v₀) hnd.2 k, optLookup_setOption,
      optLookup_cons]
    by_cases h' : k = k₀
    · subst h'
      rw [if_pos rfl, if_pos rfl]
      have hnotany : ¬ rest.any (fun p => p.1 = k) = true := by
        intro hany
        rw [List.any_eq_true] at hany
        obtain ⟨p, hp, hpk⟩ := hany
        exact hnd.1 (List.mem_map.mpr ⟨p, hp, by simpa using hpk⟩)
      have : optLookup rest k = none := by
        apply optLookup_none_of_not_any
        revert hnotany
        rcases rest.any fun p => p.1 = k <;> simp
      rw [this]
      simp
    · rw [if_neg h', if_neg (fun hc => h' hc.symm)]

theorem getSection_cons (n : String) (opts : CfgOptions) (t : Config) (s : String) :
    getSection ((n, opts) :: t) s = if n = s then some opts else getSection t s :=
  lookupKey_cons n opts t s

theorem getSection_none_of_has_false {c : Config} {s : String}
    (h : hasSection c s = false) : getSection c s = none := by
  unfold getSection
  rcases hf : c.find? (fun sec => decide (sec.1 = s)) with _ | sec
  · rw [hf]
    rfl
  · exfalso
    have hmem := List.mem_of_find?_eq_some hf
    have hpred := List.find?_some hf
    have : hasSection c s = true := by
      unfold hasSection
      exact List.any_eq_true.mpr ⟨sec, hmem, hpred⟩
    rw [this] at h
    cases h

theorem hasSection_eq_isSome (c : Config) (s : String) :
    hasSection c s = (getSection c s).isSome := by
  induction c with
  | nil => rfl
  | cons sec t ih =>
    obtain ⟨n₀, o₀⟩ := sec
    rw [getSection_cons]
    by_cases h₀ : n₀ = s
    · simp [hasSection, h₀]
    · rw [if_neg h₀]
      simpa [hasSection, List.any_cons, h₀] using ih

theorem getSection_map_update_ne (c : Config) (n : String)
    (F : CfgOptions → CfgOptions) (s : String) (h : s ≠ n) :
    getSection (c.map (fun sec => if sec.1 = n then (sec.1, F sec.2) else sec)) s =
      getSection c s := by
  induction c with
  | nil => rfl
  | cons sec t ih =>
    obtain ⟨n₀, o₀⟩ := sec
    by_cases h₀ : n₀ = n
    · rw [List.map_cons,
        show (if ((n₀, o₀) : String × CfgOptions).1 = n then (n₀, F o₀) else (n₀, o₀)) =
          (n₀, F o₀) from by simp [h₀],
        getSection_cons, getSection_cons,
        if_neg (fun hc : n₀ = s => h (hc.symm.trans h₀)),
        if_neg (fun hc : n₀ = s => h (hc.symm.trans h₀))]
      exact ih
    · rw [List.map_cons,
        show (if ((n₀, o₀) : String × CfgOptions).1 = n then (n₀, F o₀) else (n₀, o₀)) =
          (n₀, o₀) from by simp [h₀],
        getSection_cons, getSection_cons]
      by_cases h' : n₀ = s
      · rw [if_pos h', if_pos h']
      · rw [if_neg h', if_neg h']
        exact ih

theorem getSection_map_update_self (c : Config) (n : String)
    (F : CfgOptions → CfgOptions) :
    getSection (c.map (fun sec => if sec.1 = n then (sec.1, F sec.2) else sec)) n =
      (getSection c n).map F := by
  induction c with
  | nil => rfl
  | cons sec t ih =>
    obtain ⟨n₀, o₀⟩ := sec
    by_cases h₀ : n₀ = n
    · subst h₀
      rw [List.map_cons,
        show (if ((n₀, o₀) : String × CfgOptions).1 = n₀ then (n₀, F o₀) else (n₀, o₀)) =
          (n₀, F o₀) from by simp,
        getSection_cons, getSection_cons, if_pos rfl, if_pos rfl]
      rfl
    · rw [List.map_cons,
        show (if ((n₀, o₀) : String × CfgOptions).1 = n then (n₀, F o₀) else (n₀, o₀)) =
          (n₀, o₀) from by simp [h₀],
        getSection_cons, getSection_cons, if_neg h₀, if_neg h₀]
      exact ih

theorem getOpt_mergeSection (c : Config) (n : String) (opts : CfgOptions)
    (hnd : (opts.map Prod.fst).Nodup) (s k : String) :
    getOpt (mergeSection c n opts) s k =
      if s = n then (optLookup opts k).or (getOpt c n k) else getOpt c s k := by
  unfold mergeSection
  by_cases hhas : hasSection c n = true
  · rw [if_pos hhas]
    by_cases hsn : s = n
    · subst hsn
      unfold getOpt
      rw [if_pos rfl, getSection_map_update_self c s (fun o => List.foldl (fun acc p => setOption acc p.1 p.2) o opts)]
      rcases hsec : getSection c s with _ | o
      · rw [hasSection_eq_isSome, hsec] at hhas
        cases hhas
      · rw [show (Option.map (fun o => List.foldl (fun acc p => setOption acc p.1 p.2) o opts)
              (some o)).bind (fun o => optLookup o k) =
            optLookup (List.foldl (fun acc p => setOption acc p.1 p.2) o opts) k from rfl]
        rw [optLookup_foldl_set opts o hnd k]
        simp
    · unfold getOpt
      rw [if_neg hsn, getSection_map_update_ne c n (fun o => List.foldl (fun acc p => setOption acc p.1 p.2) o opts) s hsn]
  · rw [if_neg hhas]
    have hhasf : hasSection c n = false := by
      revert hhas
      rcases hasSection c n <;> simp
    by_cases hsn : s = n
    · subst hsn
      unfold getOpt
      rw [if_pos rfl, getSection_eq_lookupKey, lookupKey_append,
        show lookupKey c s = none from getSection_none_of_has_false hhasf,
        lookupKey_cons, if_pos rfl,
        show getSection c s = none from getSection_none_of_has_false hhasf]
      simp
    · unfold getOpt
      rw [if_neg hsn, getSection_eq_lookupKey (c ++ [(n, opts)]), lookupKey_append,
        lookupKey_cons, if_neg (fun hc => hsn hc.symm)]
      simp [lookupKey, getSection_eq_lookupKey]

theorem hasSection_mergeSection (c : Config) (n : String) (opts : CfgOptions)
    (s : String) :
    hasSection (mergeSection c n opts) s = (hasSection c s || decide (s = n)) := by
  unfold mergeSection
  by_cases hhas : hasSection c n = true
  · rw [if_pos hhas]
    by_cases hsn : s = n
    · subst hsn
      rw [hasSection_eq_isSome, getSection_map_update_self c s (fun o => List.foldl (fun acc p => setOption acc p.1 p.2) o opts)]
      rw [hasSection_eq_isSome] at hhas
      rcases hsec : getSection c s with _ | o
      · rw [hsec] at hhas
        cases hhas
      · simp
    · rw [hasSection_eq_isSome, getSection_map_update_ne c n (fun o => List.foldl (fun acc p => setOption acc p.1 p.2) o opts) s hsn,
        ← hasSection_eq_isSome]
      simp [hsn]
  · rw [if_neg hhas]
    rw [hasSection_eq_isSome, getSection_eq_lookupKey, lookupKey_append, lookupKey_cons]
    by_cases hsn : s = n
    · rw [if_pos hsn.symm]
      simp [hsn]
    · rw [if_neg (fun hc => hsn hc.symm)]
      simp [lookupKey, hsn, hasSection_eq_isSome, getSection_eq_lookupKey]

theorem getSection_mergeSection_ne (c : Config) (n : String) (opts : CfgOptions)
    (s : String) (h : s ≠ n) :
    getSection (mergeSection c n opts) s = getSection c s := by
  unfold mergeSection
  by_cases hhas : hasSection c n = true
  · rw [if_pos hhas, getSection_map_update_ne c n (fun o => List.foldl (fun acc p => setOption acc p.1 p.2) o opts) s h]
  · rw [if_neg hhas, getSection_eq_lookupKey, lookupKey_append, lookupKey_cons,
      if_neg (fun hc => h hc.symm)]
    simp [lookupKey, getSection_eq_lookupKey]

theorem getOpt_readMerge (file : Config) :
    ∀ base : Config, (file.map Prod.fst).Nodup →
      (∀ sec ∈ file, (sec.2.map Prod.fst).Nodup) → ∀ s k,
      getOpt (readMerge base file) s k =
        (getOpt file s k).or (getOpt base s k) := by
  induction file with
  | nil =>
    intro base _ _ s k
    simp [readMerge, getOpt, getSection, lookupKey]
  | cons sec rest ih =>
    intro base hnd hsec s k
    obtain ⟨n, opts⟩ := sec
    simp only [List.map_cons, List.nodup_cons] at hnd
    rw [readMerge, List.foldl_cons]
    have hrest : getOpt (List.foldl (fun acc s => mergeSection acc s.1 s.2)
        (mergeSection base n opts) rest) s k =
        (getOpt rest s k).or (getOpt (mergeSection base n opts) s k) :=
      ih (mergeSection base n opts) hnd.2 (fun q hq => hsec q (List.mem_cons_of_mem _ hq)) s k
    rw [hrest, getOpt_mergeSection base n opts (hsec (n, opts) (List.mem_cons_self _ _)) s k]
    by_cases hsn : s = n
    · subst hsn
      have hnone : getOpt rest s k = none := by
        unfold getOpt
        rw [getSection_none_of_has_false ?hh]
        case hh =>
          rcases hh : hasSection rest s with _ | _
          · rfl
          · exfalso
            rw [hasSection_eq_isSome] at hh
            rcases hsec' : getSection rest s with _ | o
            · rw [hsec'] at hh
              cases hh
            · unfold getSection at hsec'
              rcases hf : rest.find? (fun q => decide (q.1 = s)) with _ | q
              · rw [hf] at hsec'
                cases hsec'
              · have hqmem := List.mem_of_find?_eq_some hf
                have hqpred := List.find?_some hf
                exact hnd.1 (List.mem_map.mpr ⟨q, hqmem, by simpa using hqpred⟩)
        rfl
      rw [hnone, if_pos rfl]
      unfold getOpt
      rw [getSection_cons, if_pos rfl]
      simp
    · rw [if_neg hsn]
      unfold getOpt
      rw [getSection_cons, if_neg (fun hc => hsn hc.symm)]

theorem getSection_readMerge_not_in_file (file : Config) :
    ∀ base : Config, ∀ s : String, hasSection file s = false →
      getSection (readMerge base file) s = getSection base s := by
  induction file with
  | nil =>
    intro base s _
    rfl
  | cons sec rest ih =>
    intro base s hno
    obtain ⟨n, opts⟩ := sec
    have hne : s ≠ n := by
      intro hc
      subst hc
      unfold hasSection at hno
      simp [List.any_cons] at hno
    have hnorest : hasSection rest s = false := by
      unfold hasSection at hno ⊢
      simp only [List.any_cons, Bool.or_eq_false_iff] at hno
      exact hno.2
    rw [readMerge, List.foldl_cons]
    rw [show List.foldl (fun acc s => mergeSection acc s.1 s.2)
        (mergeSection base n opts) rest =
        readMerge (mergeSection base n opts) rest from rfl]
    rw [ih (mergeSection base n opts) s hnorest, getSection_mergeSection_ne _ _ _ _ hne]

theorem getSection_readMerge_not_in_base (file : Config) :
    ∀ base : Config, (file.map Prod.fst).Nodup → ∀ s : String,
      hasSection base s = false →
      getSection (readMerge base file) s = getSection file s := by
  induction file with
  | nil =>
    intro base _ s hb
    rw [show readMerge base [] = base from rfl, getSection_none_of_has_false hb]
    rfl
  | cons sec rest ih =>
    intro base hnd s hb
    obtain ⟨n, opts⟩ := sec
    simp only [List.map_cons, List.nodup_cons] at hnd
    rw [readMerge, List.foldl_cons,
      show List.foldl (fun acc s => mergeSection acc s.1 s.2)
        (mergeSection base n opts) rest =
        readMerge (mergeSection base n opts) rest from rfl]
    by_cases hsn : s = n
    · subst hsn
      have hnorest : hasSection rest s = false := by
        rcases hh : hasSection rest s with _ | _
        · rfl
        · exfalso
          rw [hasSection_eq_isSome] at hh
          rcases hsec' : getSection rest s with _ | o
          · rw [hsec'] at hh
            cases hh
          · unfold getSection at hsec'
            rcases hf : rest.find? (fun q => decide (q.1 = s)) with _ | q
            · rw [hf] at hsec'
              cases hsec'
            · exact hnd.1 (List.mem_map.mpr
                ⟨q, List.mem_of_find?_eq_some hf, by simpa using List.find?_some hf⟩)
      rw [getSection_readMerge_not_in_file rest _ s hnorest]
      unfold mergeSection
      rw [if_neg (by rw [hb]; exact Bool.false_ne_true)]
      rw [getSection_eq_lookupKey, lookupKey_append,
        show lookupKey base s = none from getSection_none_of_has_false hb,
        lookupKey_cons, if_pos rfl, getSection_cons, if_pos rfl]
      rfl
    · have hb' : hasSection (mergeSection base n opts) s = false := by
        rw [hasSection_mergeSection, hb]
        simp [hsn]
      rw [ih (mergeSection base n opts) hnd.2 s hb', getSection_cons,
        if_neg (fun hc => hsn hc.symm)]

/-- C8: a satellite configuration derives from the main one without mutating
it (the embedding is pure; the source deep-copies first): the `Pages` section
is always replaced by whatever the satellite file defines (nothing, when it
defines none); the `Links Bar` section is replaced exactly when the satellite
file defines one, and kept from the main site otherwise; every other section
is layered per key with the satellite's values taking precedence. -/
theorem get_extra_comic_info_spec (main extra res : Config)
    (hwf : wfConfig extra)
    (hok : get_extra_comic_info main extra = .ok res) :
    getSection res "Pages" = getSection extra "Pages" ∧
    (hasSection extra "Links Bar" = true →
      getSection res "Links Bar" = getSection extra "Links Bar") ∧
    (hasSection extra "Links Bar" = false →
      getSection res "Links Bar" = getSection main "Links Bar") ∧
    (∀ s, s ≠ "Pages" → s ≠ "Links Bar" → ∀ k,
      getOpt res s k = (getOpt extra s k).or (getOpt main s k)) := by
  obtain ⟨hwf₁, hwf₂⟩ := hwf
  have hnone_to_false : ∀ (c : Config) (s : String),
      getSection c s = none → hasSection c s = false := by
    intro c s h
    rw [hasSection_eq_isSome, h]
    rfl
  unfold get_extra_comic_info at hok
  by_cases hmp : hasSection main "Pages" = false
  · rw [if_pos hmp] at hok
    cases hok
  · rw [if_neg hmp] at hok
    by_cases hLB : hasSection extra "Links Bar" = true
    · rw [if_pos hLB] at hok
      by_cases hcLB : hasSection (removeSection main "Pages") "Links Bar" = false
      · rw [if_pos hcLB] at hok
        cases hok
      · rw [if_neg hcLB] at hok
        simp only [Except.ok.injEq] at hok
        subst hok
        have hBP : getSection
            (removeSection (removeSection main "Pages") "Links Bar") "Pages" = none := by
          rw [getSection_removeSection_ne _ _ _ (by decide),
            getSection_removeSection_self]
        have hBL : getSection
            (removeSection (removeSection main "Pages") "Links Bar") "Links Bar" =
            none := getSection_removeSection_self _ _
        refine ⟨?_, ?_, ?_, ?_⟩
        · exact getSection_readMerge_not_in_base extra _ hwf₁ "Pages"
            (hnone_to_false _ _ hBP)
        · intro _
          exact getSection_readMerge_not_in_base extra _ hwf₁ "Links Bar"
            (hnone_to_false _ _ hBL)
        · intro hfalse
          rw [hLB] at hfalse
          cases hfalse
        · intro s hsp hsl k
          rw [getOpt_readMerge extra _ hwf₁ hwf₂ s k]
          have hBs : getSection
              (removeSection (removeSection main "Pages") "Links Bar") s =
              getSection main s := by
            rw [getSection_removeSection_ne _ _ _ hsl,
              getSection_removeSection_ne _ _ _ hsp]
          unfold getOpt
          rw [hBs]
    · have hLBf : hasSection extra "Links Bar" = false := by
        revert hLB
        rcases hasSection extra "Links Bar" <;> simp
      rw [if_neg (by rw [hLBf]; exact Bool.false_ne_true)] at hok
      simp only [Except.ok.injEq] at hok
      subst hok
      have hBP : getSection (removeSection main "Pages") "Pages" = none :=
        getSection_removeSection_self _ _
      refine ⟨?_, ?_, ?_, ?_⟩
      · exact getSection_readMerge_not_in_base extra _ hwf₁ "Pages"
          (hnone_to_false _ _ hBP)
      · intro htrue
        rw [hLBf] at htrue
        cases htrue
      · intro _
        rw [getSection_readMerge_not_in_file extra _ "Links Bar" hLBf,
          getSection_removeSection_ne _ _ _ (by decide)]
      · intro s hsp hsl k
        rw [getOpt_readMerge extra _ hwf₁ hwf₂ s k]
        have hBs : getSection (removeSection main "Pages") s = getSection main s :=
          getSection_removeSection_ne _ _ _ hsp
        unfold getOpt
        rw [hBs]

/-- C8 witness: a main configuration with `Pages`, `Links Bar` and
`Comic Info` sections layered with a satellite defining only `Comic Info`:
`Pages` disappears, the main `Links Bar` is kept, and the satellite's
`Author` wins while other keys fall through to the main file. -/
theorem get_extra_comic_info_spec_witness :
    letI main : Config :=
      [("Pages", [("index", "Home")]),
       ("Links Bar", [("Archive", "/archive")]),
       ("Comic Info", [("Author", "X"), ("Description", "D")])]
    letI extra : Config := [("Comic Info", [("Author", "Y")])]
    letI res : Config :=
      [("Links Bar", [("Archive", "/archive")]),
       ("Comic Info", [("Author", "Y"), ("Description", "D")])]
    getSection res "Pages" = getSection extra "Pages" ∧
    (hasSection extra "Links Bar" = true →
      getSection res "Links Bar" = getSection extra "Links Bar") ∧
    (hasSection extra "Links Bar" = false →
      getSection res "Links Bar" = getSection main "Links Bar") ∧
    (∀ s, s ≠ "Pages" → s ≠ "Links Bar" → ∀ k,
      getOpt res s k = (getOpt extra s k).or (getOpt main s k)) :=
  get_extra_comic_info_spec _ _ _ ⟨by decide, by decide⟩ (by decide)

/-! ### Heap lemmas for the storyline-index copy claim -/

theorem readH_append_lt (h ext : Heap) (a : Nat) (ha : a < h.length) :
    readH (h ++ ext) a = readH h a := by
  unfold readH
  rw [List.get?_eq_getElem?, List.get?_eq_getElem?, List.getElem?_append_left ha]

theorem readH_append_len (h : Heap) (c : ComicData) :
    readH (h ++ [c]) h.length = c := by
  unfold readH
  rw [List.get?_eq_getElem?, List.getElem?_concat_length]
  rfl

theorem readH_set_ne (h : Heap) (a b : Nat) (v : ComicData) (hne : a ≠ b) :
    readH (writeH h a v) b = readH h b := by
  unfold readH writeH
  rw [List.get?_eq_getElem?, List.get?_eq_getElem?, List.getElem?_set_ne hne]

theorem readH_updateAllH_high (addrs : List Nat) (h : Heap)
    (f : ComicData → ComicData) (n b : Nat)
    (hlow : ∀ a ∈ addrs, a < n) (hb : n ≤ b) :
    readH (updateAllH h addrs f) b = readH h b := by
  induction addrs generalizing h with
  | nil => rfl
  | cons a rest ih =>
    have hstep : updateAllH h (a :: rest) f =
        updateAllH (writeH h a (f (readH h a))) rest f := rfl
    rw [hstep, ih _ (fun x hx => hlow x (List.mem_cons_of_mem a hx))]
    exact readH_set_ne _ _ _ _
      (Nat.ne_of_lt (Nat.lt_of_lt_of_le (hlow a (List.mem_cons_self a rest)) hb))

theorem dictAppend_mem_val {α : Type} (d : ODict α) (k : String) (v : α)
    (kb : String × List α) (hkb : kb ∈ dictAppend d k v) (x : α) (hx : x ∈ kb.2) :
    (∃ kb' ∈ d, x ∈ kb'.2) ∨ x = v := by
  revert hkb
  induction d with
  | nil =>
    intro hkb
    simp [dictAppend] at hkb
    subst hkb
    simp at hx
    exact Or.inr hx
  | cons hd tl ih =>
    intro hkb
    obtain ⟨k₀, vs₀⟩ := hd
    by_cases h₀ : k₀ = k
    · subst h₀
      simp [dictAppend] at hkb
      rcases hkb with hkb | hkb
      · subst hkb
        simp only [List.mem_append, List.mem_singleton] at hx
        rcases hx with hx | hx
        · exact Or.inl ⟨(k₀, vs₀), List.mem_cons_self _ _, hx⟩
        · exact Or.inr hx
      · exact Or.inl ⟨kb, List.mem_cons_of_mem _ hkb, hx⟩
    · simp [dictAppend, h₀] at hkb
      rcases hkb with hkb | hkb
      · subst hkb
        exact Or.inl ⟨(k₀, vs₀), List.mem_cons_self _ _, hx⟩
      · rcases ih hkb with ⟨kb', hkb', hx'⟩ | hx'
        · exact Or.inl ⟨kb', List.mem_cons_of_mem _ hkb', hx'⟩
        · exact Or.inr hx'

theorem moveKeyToEnd_mem_val {α : Type} (d : ODict α) (k : String)
    (kb : String × List α) (hkb : kb ∈ moveKeyToEnd d k) (x : α) (hx : x ∈ kb.2) :
    ∃ kb' ∈ d, x ∈ kb'.2 := by
  unfold moveKeyToEnd at hkb
  split at hkb
  · exact ⟨kb, hkb, hx⟩
  · rename_i vs hl
    rcases List.mem_append.mp hkb with hkb | hkb
    · exact ⟨kb, List.mem_of_mem_filter hkb, hx⟩
    · have hkb' : kb = (k, vs) := by simpa using hkb
      subst hkb'
      unfold lookupKey at hl
      rcases hfind : List.find? (fun kv => kv.1 = k) d with _ | kv
      · rw [hfind] at hl
        cases hl
      · rw [hfind] at hl
        simp only [Option.map_some', Option.some.injEq] at hl
        exact ⟨kv, List.mem_of_find?_eq_some hfind, by rw [hl]; exact hx⟩

theorem readIndex_congr_on (h h' : Heap) (d : ODict Nat)
    (hcong : ∀ kb ∈ d, ∀ b ∈ kb.2, readH h' b = readH h b) :
    readIndex h' d = readIndex h d := by
  unfold readIndex
  apply List.map_congr_left
  intro kb hkb
  rw [List.map_congr_left (fun b hb => hcong kb hkb b hb)]

theorem readIndex_dictAppend (h : Heap) (d : ODict Nat) (k : String) (b : Nat) :
    readIndex h (dictAppend d k b) = dictAppend (readIndex h d) k (readH h b) := by
  induction d with
  | nil => rfl
  | cons hd tl ih =>
    obtain ⟨k₀, vs₀⟩ := hd
    by_cases h₀ : k₀ = k
    · subst h₀
      simp [dictAppend, readIndex]
    · simp only [dictAppend, if_neg h₀, readIndex, List.map_cons] at ih ⊢
      rw [ih]

theorem lookupKey_readIndex (h : Heap) (d : ODict Nat) (k : String) :
    lookupKey (readIndex h d) k = (lookupKey d k).map (fun bs => bs.map (readH h)) := by
  induction d with
  | nil => rfl
  | cons hd tl ih =>
    obtain ⟨k₀, vs₀⟩ := hd
    by_cases h₀ : k₀ = k
    · subst h₀
      simp [readIndex, lookupKey_cons]
    · simp only [readIndex, List.map_cons] at ih ⊢
      rw [lookupKey_cons, lookupKey_cons, if_neg h₀, if_neg h₀, ih]

theorem readIndex_filter_ne_key (h : Heap) (d : ODict Nat) (k : String) :
    readIndex h (d.filter (fun kv => kv.1 ≠ k)) =
      (readIndex h d).filter (fun kv => kv.1 ≠ k) := by
  unfold readIndex
  rw [List.filter_map]
  congr 1

theorem readIndex_moveKeyToEnd (h : Heap) (d : ODict Nat) (k : String) :
    readIndex h (moveKeyToEnd d k) = moveKeyToEnd (readIndex h d) k := by
  rcases hl : lookupKey d k with _ | vs
  · have h₁ : moveKeyToEnd d k = d := by simp [moveKeyToEnd, hl]
    have h₂ : lookupKey (readIndex h d) k = none := by
      rw [lookupKey_readIndex, hl]
      rfl
    have h₃ : moveKeyToEnd (readIndex h d) k = readIndex h d := by
      simp [moveKeyToEnd, h₂]
    rw [h₁, h₃]
  · have h₁ : moveKeyToEnd d k = d.filter (fun kv => kv.1 ≠ k) ++ [(k, vs)] := by
      simp [moveKeyToEnd, hl]
    have h₂ : lookupKey (readIndex h d) k = some (vs.map (readH h)) := by
      rw [lookupKey_readIndex, hl]
      rfl
    have h₃ : moveKeyToEnd (readIndex h d) k =
        (readIndex h d).filter (fun kv => kv.1 ≠ k) ++ [(k, vs.map (readH h))] := by
      simp [moveKeyToEnd, h₂]
    rw [h₁, h₃]
    have h₄ := readIndex_filter_ne_key h d k
    unfold readIndex at h₄ ⊢
    rw [List.map_append, h₄]
    rfl

theorem storyline_bound_glue {h₀ ext : Heap} {dn : ODict Nat} (c : ComicData)
    (key : String)
    (hbound : ∀ kb ∈ dn, ∀ b ∈ kb.2, h₀.length ≤ b ∧ b < (h₀ ++ ext).length) :
    ∀ kb ∈ dictAppend dn key (h₀ ++ ext).length, ∀ b ∈ kb.2,
      h₀.length ≤ b ∧ b < (h₀ ++ (ext ++ [c])).length := by
  intro kb hkb b hb
  rcases dictAppend_mem_val dn key _ kb hkb b hb with ⟨kb', hkb', hb'⟩ | hbv
  · have h := hbound kb' hkb' b hb'
    simp only [List.length_append] at h ⊢
    omega
  · subst hbv
    simp only [List.length_append, List.length_cons, List.length_nil]
    omega

theorem storyline_step_glue (h₀ ext : Heap) (dn : ODict Nat) (key : String)
    (hbound : ∀ kb ∈ dn, ∀ b ∈ kb.2, h₀.length ≤ b ∧ b < (h₀ ++ ext).length)
    (c : ComicData) :
    readIndex (h₀ ++ (ext ++ [c])) (dictAppend dn key (h₀ ++ ext).length) =
      dictAppend (readIndex (h₀ ++ ext) dn) key c := by
  rw [← List.append_assoc, readIndex_dictAppend, readH_append_len,
    readIndex_congr_on (h₀ ++ ext) ((h₀ ++ ext) ++ [c]) dn
      (fun kb hkb b hb => readH_append_lt _ _ _ (hbound kb hkb b hb).2)]

theorem storyline_fold_inv (su : Bool) (addrs : List Nat) :
    ∀ (h₀ ext : Heap) (dn : ODict Nat),
    (∀ a ∈ addrs, a < h₀.length) →
    (∀ kb ∈ dn, ∀ b ∈ kb.2, h₀.length ≤ b ∧ b < (h₀ ++ ext).length) →
    ∃ ext',
      (addrs.foldl (storylineStepH su) (h₀ ++ ext, dn)).1 = h₀ ++ ext' ∧
      (∀ kb ∈ (addrs.foldl (storylineStepH su) (h₀ ++ ext, dn)).2, ∀ b ∈ kb.2,
        h₀.length ≤ b ∧ b < (h₀ ++ ext').length) ∧
      readIndex (h₀ ++ ext') (addrs.foldl (storylineStepH su) (h₀ ++ ext, dn)).2 =
        addrs.foldl (fun d a => storylineStep su d (readH h₀ a))
          (readIndex (h₀ ++ ext) dn) := by
  induction addrs with
  | nil =>
    intro h₀ ext dn _ hbound
    exact ⟨ext, rfl, hbound, rfl⟩
  | cons a rest ih =>
    intro h₀ ext dn hlow hbound
    have hlow' : ∀ x ∈ rest, x < h₀.length :=
      fun x hx => hlow x (List.mem_cons_of_mem a hx)
    have ha : a < h₀.length := hlow a (List.mem_cons_self a rest)
    have hc : readH (h₀ ++ ext) a = readH h₀ a := readH_append_lt h₀ ext a ha
    simp only [List.foldl_cons]
    by_cases hf : falsyStoryline (readH h₀ a).storyline
    · cases su with
      | false =>
        have hstep : storylineStepH false (h₀ ++ ext, dn) a = (h₀ ++ ext, dn) := by
          simp [storylineStepH, hc, hf]
        have hpure : storylineStep false (readIndex (h₀ ++ ext) dn) (readH h₀ a) =
            readIndex (h₀ ++ ext) dn := by
          simp [storylineStep, hf]
        rw [hstep, hpure]
        exact ih h₀ ext dn hlow' hbound
      | true =>
        have hstep : storylineStepH true (h₀ ++ ext, dn) a =
            ((h₀ ++ ext) ++ [readH h₀ a],
              dictAppend dn "Uncategorized" (h₀ ++ ext).length) := by
          simp [storylineStepH, hc, hf]
        have hpure : storylineStep true (readIndex (h₀ ++ ext) dn) (readH h₀ a) =
            dictAppend (readIndex (h₀ ++ ext) dn) "Uncategorized" (readH h₀ a) := by
          simp [storylineStep, hf]
        rw [hstep, hpure, List.append_assoc]
        obtain ⟨ext', h1, h2, h3⟩ :=
          ih h₀ (ext ++ [readH h₀ a]) (dictAppend dn "Uncategorized" (h₀ ++ ext).length)
            hlow' (storyline_bound_glue (readH h₀ a) "Uncategorized" hbound)
        exact ⟨ext', h1, h2, by
          rw [h3, storyline_step_glue h₀ ext dn "Uncategorized" hbound (readH h₀ a)]⟩
    · have hstep : storylineStepH su (h₀ ++ ext, dn) a =
          ((h₀ ++ ext) ++ [readH h₀ a],
            dictAppend dn ((readH h₀ a).storyline.getD "") (h₀ ++ ext).length) := by
        simp [storylineStepH, hc, hf]
      have hpure : storylineStep su (readIndex (h₀ ++ ext) dn) (readH h₀ a) =
          dictAppend (readIndex (h₀ ++ ext) dn) ((readH h₀ a).storyline.getD "")
            (readH h₀ a) := by
        simp [storylineStep, hf]
      rw [hstep, hpure, List.append_assoc]
      obtain ⟨ext', h1, h2, h3⟩ :=
        ih h₀ (ext ++ [readH h₀ a])
          (dictAppend dn ((readH h₀ a).storyline.getD "") (h₀ ++ ext).length)
          hlow' (storyline_bound_glue (readH h₀ a) ((readH h₀ a).storyline.getD "") hbound)
      exact ⟨ext', h1, h2, by
        rw [h3, storyline_step_glue h₀ ext dn ((readH h₀ a).storyline.getD "")
          hbound (readH h₀ a)]⟩

/-- C10: each bucket of the storyline index stores `comic_data.copy()` — a
fresh object allocated at indexing time — so on the heap embedding the index
read back after `write_html_files` mutates every original record in place
(`updateAllH` over the record addresses, covering
`comic_data_dict.update(global_values)`) is the same as the index read back
before the mutation, and both agree with the pure `get_storylines` of the
record values at indexing time. -/
theorem get_storylines_heap_frame (h₀ : Heap) (addrs : List Nat) (su : Bool)
    (f : ComicData → ComicData) (hva : ∀ a ∈ addrs, a < h₀.length) :
    readIndex (get_storylinesH h₀ addrs su).1 (get_storylinesH h₀ addrs su).2 =
      get_storylines (addrs.map (readH h₀)) su ∧
    readIndex (updateAllH (get_storylinesH h₀ addrs su).1 addrs f)
        (get_storylinesH h₀ addrs su).2 =
      get_storylines (addrs.map (readH h₀)) su := by
  obtain ⟨ext', h1, h2, h3⟩ :=
    storyline_fold_inv su addrs h₀ [] [] hva
      (fun kb hkb => absurd hkb (List.not_mem_nil kb))
  rw [List.append_nil] at h1 h2 h3
  have hnil : readIndex h₀ ([] : ODict Nat) = [] := rfl
  rw [hnil] at h3
  have hHeq : get_storylinesH h₀ addrs su =
      (if (lookupKey (addrs.foldl (storylineStepH su) (h₀, [])).2
            "Uncategorized").isSome
        then ((addrs.foldl (storylineStepH su) (h₀, [])).1,
          moveKeyToEnd (addrs.foldl (storylineStepH su) (h₀, [])).2 "Uncategorized")
        else addrs.foldl (storylineStepH su) (h₀, [])) := rfl
  have hPeq : get_storylines (addrs.map (readH h₀)) su =
      (if (lookupKey (addrs.foldl (fun d a => storylineStep su d (readH h₀ a)) [])
            "Uncategorized").isSome
        then moveKeyToEnd
          (addrs.foldl (fun d a => storylineStep su d (readH h₀ a)) []) "Uncategorized"
        else addrs.foldl (fun d a => storylineStep su d (readH h₀ a)) []) := by
    unfold get_storylines
    rw [List.foldl_map]
  rw [hHeq, hPeq]
  by_cases hU : (lookupKey (addrs.foldl (storylineStepH su) (h₀, [])).2
      "Uncategorized").isSome = true
  · have hUp : (lookupKey (addrs.foldl (fun d a => storylineStep su d (readH h₀ a)) [])
        "Uncategorized").isSome = true := by
      rw [← h3, lookupKey_readIndex, Option.isSome_map']
      exact hU
    rw [if_pos hU, if_pos hUp]
    have hro : readIndex (updateAllH (h₀ ++ ext') addrs f)
        (moveKeyToEnd (addrs.foldl (storylineStepH su) (h₀, [])).2 "Uncategorized") =
        readIndex (h₀ ++ ext')
          (moveKeyToEnd (addrs.foldl (storylineStepH su) (h₀, [])).2 "Uncategorized") := by
      apply readIndex_congr_on
      intro kb hkb b hb
      obtain ⟨kb', hkb', hb'⟩ := moveKeyToEnd_mem_val _ _ kb hkb b hb
      exact readH_updateAllH_high addrs (h₀ ++ ext') f h₀.length b hva
        (h2 kb' hkb' b hb').1
    constructor
    · rw [h1, readIndex_moveKeyToEnd, h3]
    · rw [h1, hro, readIndex_moveKeyToEnd, h3]
  · have hUp : ¬ (lookupKey (addrs.foldl (fun d a => storylineStep su d (readH h₀ a)) [])
        "Uncategorized").isSome = true := by
      rw [← h3, lookupKey_readIndex, Option.isSome_map']
      exact hU
    rw [if_neg hU, if_neg hUp]
    have hro : readIndex (updateAllH (h₀ ++ ext') addrs f)
        (addrs.foldl (storylineStepH su) (h₀, [])).2 =
        readIndex (h₀ ++ ext') (addrs.foldl (storylineStepH su) (h₀, [])).2 :=
      readIndex_congr_on _ _ _
        (fun kb hkb b hb =>
          readH_updateAllH_high addrs (h₀ ++ ext') f h₀.length b hva (h2 kb hkb b hb).1)
    constructor
    · rw [h1, h3]
    · rw [h1, hro, h3]

/-- C10 witness: two records (storylines `"A"` and `None`) indexed with
uncategorized display on; retitling every record in place after the index is
built leaves the read-back index equal to the pure index of the original
values. -/
theorem get_storylines_heap_frame_witness :
    letI r1 : ComicData :=
      { pageName := "p1", pageTitle := "One", storyline := some "A",
        characters := [], tags := [] }
    letI r2 : ComicData :=
      { pageName := "p2", pageTitle := "Two", storyline := none,
        characters := [], tags := [] }
    (∀ a ∈ [0, 1], a < [r1, r2].length) ∧
    (readIndex (get_storylinesH [r1, r2] [0, 1] true).1
        (get_storylinesH [r1, r2] [0, 1] true).2 =
      get_storylines ([0, 1].map (readH [r1, r2])) true ∧
    readIndex (updateAllH (get_storylinesH [r1, r2] [0, 1] true).1 [0, 1]
          (fun c => { c with pageTitle := "mutated" }))
        (get_storylinesH [r1, r2] [0, 1] true).2 =
      get_storylines ([0, 1].map (readH [r1, r2])) true) :=
  ⟨by decide,
   get_storylines_heap_frame [_, _] [0, 1] true
     (fun c => { c with pageTitle := "mutated" }) (by decide)⟩

end ComicGit
